import Mathlib

/-! ssh-tamagotchi: the shared pet, its decay loop and the subscriber fan-out.

A shallow embedding of `game.go`.  The Go package keeps one global
`gameState`; here the whole mutable memory of the program is a `World` value
that every operation takes and returns.  Channels are heap objects: a channel
value is a reference (an index into `World.chans`).  Calls to `time.Now()` are
inputs of the operation that makes them.  Go's `int` is 64 bits wide and wraps
around; `wrapInt` is applied wherever the source does arithmetic on `Health`.
A Go panic (send on a closed channel, close of a closed channel) is `none`.
-/

namespace Tamagotchi

/-! ## Data model -/

/-- Largest value of Go's 64-bit `int`. -/
def maxInt : Int := 9223372036854775807

/-- Smallest value of Go's 64-bit `int`. -/
def minInt : Int := -9223372036854775808

/-- Two's-complement wrap-around of an integer into the range of Go's `int`. -/
def wrapInt (x : Int) : Int :=
  (x + 9223372036854775808) % 18446744073709551616 - 9223372036854775808

/-- The `Action` struct (`Typ` is the field `Type`). -/
structure Action where
  User : String
  Typ : String
  Timestamp : Nat
deriving DecidableEq, Repr

/-- The `Pet` struct. -/
structure Pet where
  Name : String
  Health : Int
  MaxHealth : Int
  Mood : String
  LastFed : Nat
  LastPet : Nat
  Actions : List Action
deriving DecidableEq, Repr

/-- The `GameUpdate` struct. -/
structure GameUpdate where
  Pet : Pet
  Message : String
deriving DecidableEq, Repr

/-- A buffered channel of `GameUpdate`: its queue, its capacity, and whether
`close` has been called on it. -/
structure Chan where
  buf : List GameUpdate
  cap : Nat
  closed : Bool
deriving DecidableEq, Repr

/-- The `GameState` struct.  The two Go maps are association lists; a channel
value is a reference into the channel heap.  The mutex is not a field: every
operation below is one atomic step. -/
structure GameState where
  Pet : Pet
  ConnectedUsers : List (String × Bool)
  Subscribers : List (String × Nat)
deriving DecidableEq, Repr

/-- The memory of the running program: the global `gameState`, the heap of
channels made so far, and two history variables that the program itself never
reads: `sent`, the arguments of all `broadcast` calls in order, and `recorded`,
all actions ever passed through `addAction` in order. -/
structure World where
  gameState : GameState
  chans : List Chan
  sent : List GameUpdate
  recorded : List Action
deriving DecidableEq, Repr

/-! ## Go maps as association lists -/

/-- Go's `delete(m, k)`. -/
def mapDelete {α : Type} (m : List (String × α)) (k : String) : List (String × α) :=
  m.filter (fun e => decide (e.1 ≠ k))

/-- Go's `m[k] = v`. -/
def mapSet {α : Type} (m : List (String × α)) (k : String) (v : α) : List (String × α) :=
  mapDelete m k ++ [(k, v)]

/-- Go's `v, exists := m[k]`. -/
def mapGet {α : Type} (m : List (String × α)) (k : String) : Option α :=
  (m.find? (fun e => decide (e.1 = k))).map Prod.snd

/-! ## Operations of `game.go` -/

/-- `InitGame`: the initial memory.  `t1` and `t2` are the two `time.Now()`
readings. -/
def InitGame (t1 t2 : Nat) : World :=
  { gameState :=
      { Pet :=
          { Name := "Jankypet"
            Health := 50
            MaxHealth := 100
            Mood := "neutral"
            LastFed := t1
            LastPet := t2
            Actions := [] }
        ConnectedUsers := []
        Subscribers := [] }
    chans := []
    sent := []
    recorded := [] }

/-- The non-blocking send `select { case ch <- update: default: }` on one
channel: panics when the channel is closed, enqueues when there is room,
otherwise takes the `default` branch. -/
def trySend (c : Chan) (update : GameUpdate) : Option Chan :=
  if c.closed then none
  else if c.buf.length < c.cap then some { c with buf := c.buf ++ [update] }
  else some c

/-- The loop `for _, ch := range gameState.Subscribers` of `broadcast`, over
the entries of the map in the order given. -/
def sendAll (update : GameUpdate) : List (String × Nat) → List Chan → Option (List Chan)
  | [], chans => some chans
  | (_, ch) :: rest, chans =>
    match chans[ch]? with
    | none => none
    | some c =>
      match trySend c update with
      | none => none
      | some c1 => sendAll update rest (chans.set ch c1)

/-- `broadcast`. -/
def broadcast (w : World) (update : GameUpdate) : Option World :=
  (sendAll update w.gameState.Subscribers w.chans).map
    (fun chans => { w with chans := chans, sent := w.sent ++ [update] })

/-- `GameState.addAction`; `ts` is its `time.Now()`. -/
def addAction (w : World) (user actionType : String) (ts : Nat) : World :=
  let action : Action := { User := user, Typ := actionType, Timestamp := ts }
  let actions := w.gameState.Pet.Actions ++ [action]
  let actions :=
    if actions.length > 5 then actions.drop (actions.length - 5) else actions
  { w with
    gameState := { w.gameState with Pet := { w.gameState.Pet with Actions := actions } }
    recorded := w.recorded ++ [action] }

/-- Assignment to `gameState.Pet`. -/
def setPet (w : World) (p : Pet) : World :=
  { w with gameState := { w.gameState with Pet := p } }

/-- The critical section of one iteration of `healthDecayLoop`. -/
def decayLocked (w : World) (ts : Nat) : World :=
  if w.gameState.Pet.Health > 0 then
    let w1 := setPet w { w.gameState.Pet with Health := wrapInt (w.gameState.Pet.Health - 1) }
    if w1.gameState.Pet.Health ≤ 0 then
      let w2 := setPet w1 { w1.gameState.Pet with Health := 0 }
      let w3 := setPet w2 { w2.gameState.Pet with Mood := "dead" }
      addAction w3 "system" "died" ts
    else if w1.gameState.Pet.Health < 20 then
      setPet w1 { w1.gameState.Pet with Mood := "dying" }
    else if w1.gameState.Pet.Health < 40 then
      setPet w1 { w1.gameState.Pet with Mood := "sad" }
    else w1
  else w

/-- One iteration of the loop body of `healthDecayLoop`. -/
def healthDecayTick (w : World) (ts : Nat) : Option World :=
  let w1 := decayLocked w ts
  let pet := w1.gameState.Pet
  broadcast w1 { Pet := pet, Message := "" }

/-- `Subscribe`: returns the new memory and the channel made. -/
def Subscribe (w : World) (userID : String) : World × Nat :=
  let ch := w.chans.length
  ({ w with
     chans := w.chans ++ [{ buf := [], cap := 10, closed := false }]
     gameState :=
       { w.gameState with
         Subscribers := mapSet w.gameState.Subscribers userID ch
         ConnectedUsers := mapSet w.gameState.ConnectedUsers userID true } }, ch)

/-- `Unsubscribe`. -/
def Unsubscribe (w : World) (userID : String) : Option World :=
  match mapGet w.gameState.Subscribers userID with
  | some ch =>
    match w.chans[ch]? with
    | none => none
    | some c =>
      if c.closed then none
      else
        some { w with
          chans := w.chans.set ch { c with closed := true }
          gameState :=
            { w.gameState with
              Subscribers := mapDelete w.gameState.Subscribers userID
              ConnectedUsers := mapDelete w.gameState.ConnectedUsers userID } }
  | none =>
    some { w with
      gameState :=
        { w.gameState with
          ConnectedUsers := mapDelete w.gameState.ConnectedUsers userID } }

/-- The critical section of `FeedPet`: the new memory, the update handed to
`broadcast`, and the string returned.  `now` is the `time.Now()` stored in
`LastFed`, `ts` the one read by `addAction`. -/
def feedLocked (w : World) (user : String) (now ts : Nat) : World × GameUpdate × String :=
  if w.gameState.Pet.Health ≤ 0 then
    let w1 := setPet w { w.gameState.Pet with Health := 30 }
    let w2 := setPet w1 { w1.gameState.Pet with Mood := "revived" }
    let w3 := addAction w2 user "revived" ts
    let pet := w3.gameState.Pet
    (w3, { Pet := pet, Message := user ++ " revived Jankypet!" }, "You revived Jankypet!")
  else
    let w1 := setPet w { w.gameState.Pet with Health := wrapInt (w.gameState.Pet.Health + 15) }
    let w2 :=
      if w1.gameState.Pet.Health > w1.gameState.Pet.MaxHealth then
        setPet w1 { w1.gameState.Pet with Health := w1.gameState.Pet.MaxHealth }
      else w1
    let w3 := setPet w2 { w2.gameState.Pet with LastFed := now }
    let w4 := setPet w3 { w3.gameState.Pet with Mood := "happy" }
    let w5 := addAction w4 user "fed" ts
    let pet := w5.gameState.Pet
    (w5, { Pet := pet, Message := user ++ " fed Jankypet!" }, "You fed Jankypet!")

/-- `FeedPet`. -/
def FeedPet (w : World) (user : String) (now ts : Nat) : Option (World × String) :=
  let r := feedLocked w user now ts
  (broadcast r.1 r.2.1).map (fun w1 => (w1, r.2.2))

/-- The critical section of `PetPet`; no update when the call returns before
reaching `broadcast`. -/
def petLocked (w : World) (user : String) (now ts : Nat) :
    World × Option GameUpdate × String :=
  if w.gameState.Pet.Health ≤ 0 then
    (w, none, "Can't pet a dead pet!")
  else
    let w1 := setPet w { w.gameState.Pet with Health := wrapInt (w.gameState.Pet.Health + 5) }
    let w2 :=
      if w1.gameState.Pet.Health > w1.gameState.Pet.MaxHealth then
        setPet w1 { w1.gameState.Pet with Health := w1.gameState.Pet.MaxHealth }
      else w1
    let w3 := setPet w2 { w2.gameState.Pet with LastPet := now }
    let w4 :=
      if w3.gameState.Pet.Mood ≠ "happy" then
        setPet w3 { w3.gameState.Pet with Mood := "content" }
      else w3
    let w5 := addAction w4 user "petted" ts
    let pet := w5.gameState.Pet
    (w5, some { Pet := pet, Message := user ++ " petted Jankypet!" }, "You petted Jankypet!")

/-- `PetPet`. -/
def PetPet (w : World) (user : String) (now ts : Nat) : Option (World × String) :=
  let r := petLocked w user now ts
  match r.2.1 with
  | none => some (r.1, r.2.2)
  | some update => (broadcast r.1 update).map (fun w1 => (w1, r.2.2))

/-- The critical section of `HitPet`. -/
def hitLocked (w : World) (user : String) (ts : Nat) :
    World × Option GameUpdate × String :=
  if w.gameState.Pet.Health ≤ 0 then
    (w, none, "Stop! It's already dead!")
  else
    let w1 := setPet w { w.gameState.Pet with Health := wrapInt (w.gameState.Pet.Health - 20) }
    let w2 :=
      if w1.gameState.Pet.Health < 0 then setPet w1 { w1.gameState.Pet with Health := 0 }
      else w1
    let r : World × String :=
      if w2.gameState.Pet.Health ≤ 0 then
        let w3 := setPet w2 { w2.gameState.Pet with Mood := "dead" }
        (addAction w3 user "killed" ts, "You killed Jankypet! ðŸ’€")
      else
        let w3 := setPet w2 { w2.gameState.Pet with Mood := "angry" }
        (addAction w3 user "hit" ts, "You hit Jankypet! ðŸ˜¢")
    let pet := r.1.gameState.Pet
    (r.1, some { Pet := pet, Message := user ++ " hit Jankypet!" }, r.2)

/-- `HitPet`. -/
def HitPet (w : World) (user : String) (ts : Nat) : Option (World × String) :=
  let r := hitLocked w user ts
  match r.2.1 with
  | none => some (r.1, r.2.2)
  | some update => (broadcast r.1 update).map (fun w1 => (w1, r.2.2))

/-- `GetGameState`. -/
def GetGameState (w : World) : Pet :=
  w.gameState.Pet

/-- The zero value of `GameUpdate`, which a receive yields on a channel that is
closed and drained. -/
def zeroUpdate : GameUpdate :=
  { Pet :=
      { Name := ""
        Health := 0
        MaxHealth := 0
        Mood := ""
        LastFed := 0
        LastPet := 0
        Actions := [] }
    Message := "" }

/-- The receive `<-updates` of `waitForUpdate` in `model.go`, by the holder of
a channel: takes the oldest queued update.  On an empty queue it yields the
zero value if the channel is closed; otherwise the receive is still blocked
(`none`).  Neither changes the memory. -/
def waitForUpdate (w : World) (updates : Nat) : World × Option GameUpdate :=
  match w.chans[updates]? with
  | none => (w, none)
  | some c =>
    match c.buf with
    | [] => (w, if c.closed then some zeroUpdate else none)
    | u :: rest => ({ w with chans := w.chans.set updates { c with buf := rest } }, some u)

/-! ## Runs -/

/-- One call into the package, with the inputs it reads. -/
inductive Op where
  | feed (user : String) (now ts : Nat)
  | pet (user : String) (now ts : Nat)
  | hit (user : String) (ts : Nat)
  | tick (ts : Nat)
  | subscribe (userID : String)
  | unsubscribe (userID : String)
  | getState
  | receive (updates : Nat)
deriving DecidableEq, Repr

/-- The memory after one call; `none` when the call panics. -/
def step (w : World) : Op → Option World
  | .feed user now ts => (FeedPet w user now ts).map Prod.fst
  | .pet user now ts => (PetPet w user now ts).map Prod.fst
  | .hit user ts => (HitPet w user ts).map Prod.fst
  | .tick ts => healthDecayTick w ts
  | .subscribe userID => some (Subscribe w userID).1
  | .unsubscribe userID => Unsubscribe w userID
  | .getState => some w
  | .receive updates => some (waitForUpdate w updates).1

/-- The memory after a sequence of calls, one after the other. -/
def run (w : World) : List Op → Option World
  | [] => some w
  | op :: ops =>
    match step w op with
    | none => none
    | some w1 => run w1 ops

/-! ## Predicates used in the statements -/

/-- The reference `ch` points to a channel of the heap that has not been
closed. -/
def chanOpen (chans : List Chan) (ch : Nat) : Bool :=
  match chans[ch]? with
  | some c => !c.closed
  | none => false

/-- Every channel in the registry is a channel of the heap that has not been
closed, and no channel is registered under two identities. -/
def RegistryOK (w : World) : Prop :=
  (∀ e ∈ w.gameState.Subscribers, chanOpen w.chans e.2 = true) ∧
    (w.gameState.Subscribers.map Prod.snd).Nodup

instance (w : World) : Decidable (RegistryOK w) := by
  unfold RegistryOK
  infer_instance

/-- The memory at the end of the critical section of a call (before its
`broadcast`, if any). -/
def lockedPart (w : World) : Op → World
  | .feed user now ts => (feedLocked w user now ts).1
  | .pet user now ts => (petLocked w user now ts).1
  | .hit user ts => (hitLocked w user ts).1
  | .tick ts => decayLocked w ts
  | _ => w

/-- The ceiling is the one set by `InitGame`, and the health lies between 0
and the ceiling. -/
def PetBounds (w : World) : Prop :=
  w.gameState.Pet.MaxHealth = 100 ∧ 0 ≤ w.gameState.Pet.Health ∧
    w.gameState.Pet.Health ≤ w.gameState.Pet.MaxHealth

/-- The mood is `dead` exactly when the health is 0. -/
def DeadIffZero (w : World) : Prop :=
  w.gameState.Pet.Mood = "dead" ↔ w.gameState.Pet.Health = 0

/-- The action log of the pet is the last five (or fewer) of all recorded
actions, oldest first. -/
def ActionsAreLastFive (w : World) : Prop :=
  w.gameState.Pet.Actions = w.recorded.drop (w.recorded.length - 5)

/-- Every channel of the heap has capacity 10 and holds at most 10 queued
updates. -/
def ChansBounded (w : World) : Prop :=
  ∀ c ∈ w.chans, c.cap = 10 ∧ c.buf.length ≤ 10

instance (w : World) : Decidable (ChansBounded w) := by
  unfold ChansBounded
  infer_instance

/-- A memory for the examples: a pet with the given health and mood whose log
holds a `fed` action and one more action of type `last`, and one subscriber
`bob` whose channel holds no update yet. -/
def sampleWorld (health : Int) (mood last : String) : World :=
  { gameState :=
      { Pet :=
          { Name := "Jankypet"
            Health := health
            MaxHealth := 100
            Mood := mood
            LastFed := 1
            LastPet := 2
            Actions := [{ User := "ann", Typ := "fed", Timestamp := 1 },
              { User := "ann", Typ := last, Timestamp := 2 }] }
        ConnectedUsers := [("bob", true)]
        Subscribers := [("bob", 0)] }
    chans := [{ buf := [], cap := 10, closed := false }]
    sent := []
    recorded := [{ User := "ann", Typ := "fed", Timestamp := 1 },
      { User := "ann", Typ := last, Timestamp := 2 }] }

/-- A memory for the examples: the pet of `InitGame` and two subscribers, `bob`
with an empty queue and `eve` with a full one. -/
def twoSubscribers : World :=
  { gameState :=
      { Pet := (InitGame 1 2).gameState.Pet
        ConnectedUsers := [("bob", true), ("eve", true)]
        Subscribers := [("bob", 0), ("eve", 1)] }
    chans := [{ buf := [], cap := 10, closed := false },
      { buf := List.replicate 10 { Pet := (InitGame 1 2).gameState.Pet, Message := "" }
        cap := 10
        closed := false }]
    sent := List.replicate 10 { Pet := (InitGame 1 2).gameState.Pet, Message := "" }
    recorded := [] }

/-- The two maps of the registry hold the same identities, and every
connected-flag is `true`. -/
def KeysAgree (w : World) : Prop :=
  w.gameState.Subscribers.map Prod.fst = w.gameState.ConnectedUsers.map Prod.fst ∧
    ∀ e ∈ w.gameState.ConnectedUsers, e.2 = true

instance (w : World) : Decidable (KeysAgree w) := by
  unfold KeysAgree
  infer_instance

/-- The channel `r` is not in the registry, is open, and its queue is what is
left of `buf` after some receives. -/
def Detached (w : World) (r : Nat) (buf : List GameUpdate) : Prop :=
  r ∉ w.gameState.Subscribers.map Prod.snd ∧
    ∃ c, w.chans[r]? = some c ∧ c.closed = false ∧ List.IsSuffix c.buf buf

/-- The name and the ceiling of the pet are those set by `InitGame`. -/
def PetStatic (w : World) : Prop :=
  w.gameState.Pet.Name = "Jankypet" ∧ w.gameState.Pet.MaxHealth = 100

/-- The user string a call is made with, if it takes one. -/
def opUser : Op → Option String
  | .feed user _ _ => some user
  | .pet user _ _ => some user
  | .hit user _ => some user
  | _ => none

/-- Every recorded action of type `died` is by `system`. -/
def DiedBySystem (w : World) : Prop :=
  ∀ a ∈ w.recorded, a.Typ = "died" → a.User = "system"

/-- Every recorded action by `system` is of type `died`. -/
def SystemOnlyDied (w : World) : Prop :=
  ∀ a ∈ w.recorded, a.User = "system" → a.Typ = "died"

/-- The moods set by the decay loop agree with its thresholds. -/
def DecayMoods (w : World) : Prop :=
  (w.gameState.Pet.Mood = "dying" →
      1 ≤ w.gameState.Pet.Health ∧ w.gameState.Pet.Health ≤ 19) ∧
    (w.gameState.Pet.Mood = "sad" →
      20 ≤ w.gameState.Pet.Health ∧ w.gameState.Pet.Health ≤ 39)

/-- The list of actions ends with an action of type `killed` or `died`. -/
def lastIsFatal (l : List Action) : Prop :=
  ∃ a, l.getLast? = some a ∧ (a.Typ = "killed" ∨ a.Typ = "died")

/-- The health is 0 exactly when the most recent recorded action is `killed`
or `died`. -/
def ZeroIffFatal (w : World) : Prop :=
  w.gameState.Pet.Health = 0 ↔ lastIsFatal w.recorded

/-! ## Arithmetic on Go's `int` -/

theorem wrapInt_eq_self {x : Int} (hlo : minInt ≤ x) (hhi : x ≤ maxInt) : wrapInt x = x := by
  unfold minInt at hlo
  unfold maxInt at hhi
  unfold wrapInt
  omega

/-! ## The fan-out -/

theorem trySend_open {c : Chan} (u : GameUpdate) (h : c.closed = false) :
    trySend c u = some (if c.buf.length < c.cap then { c with buf := c.buf ++ [u] } else c) := by
  unfold trySend
  simp only [h, Bool.false_eq_true, if_false]
  split <;> rfl

theorem trySend_closed_eq {c c1 : Chan} {u : GameUpdate} (h : trySend c u = some c1) :
    c1.closed = c.closed ∧ c1.cap = c.cap := by
  unfold trySend at h
  split at h
  · exact absurd h (by simp)
  · split at h <;> (cases h; exact ⟨rfl, rfl⟩)

theorem chanOpen_iff {chans : List Chan} {ch : Nat} :
    chanOpen chans ch = true ↔ ∃ c, chans[ch]? = some c ∧ c.closed = false := by
  unfold chanOpen
  cases h : chans[ch]? with
  | none => simp
  | some c => simp

/-- On a heap where all channels of `subs` are open and pairwise distinct, the
send loop succeeds and performs exactly one non-blocking send on each of them. -/
theorem sendAll_spec (u : GameUpdate) :
    ∀ (subs : List (String × Nat)) (chans : List Chan),
      (∀ e ∈ subs, chanOpen chans e.2 = true) → (subs.map Prod.snd).Nodup →
      ∃ chans1, sendAll u subs chans = some chans1 ∧ chans1.length = chans.length ∧
        ∀ r, chans1[r]? =
          if r ∈ subs.map Prod.snd then (chans[r]?).bind (fun c => trySend c u) else chans[r]? := by
  intro subs
  induction subs with
  | nil =>
    intro chans _ _
    exact ⟨chans, rfl, rfl, fun r => by simp⟩
  | cons e rest ih =>
    intro chans hopen hnd
    obtain ⟨k, ch⟩ := e
    have hhead : chanOpen chans ch = true := hopen (k, ch) (List.mem_cons_self _ _)
    obtain ⟨c, hc, hcl⟩ := chanOpen_iff.mp hhead
    rw [List.map_cons, List.nodup_cons] at hnd
    obtain ⟨hnotin, hnd1⟩ := hnd
    have hsend := trySend_open u hcl
    have hrest : ∀ e ∈ rest, chanOpen (chans.set ch
        (if c.buf.length < c.cap then { c with buf := c.buf ++ [u] } else c)) e.2 = true := by
      intro e he
      have hne : ch ≠ e.2 := by
        intro heq
        have hmem : e.2 ∈ rest.map Prod.snd := List.mem_map_of_mem Prod.snd he
        rw [← heq] at hmem
        exact hnotin hmem
      have := hopen e (List.mem_cons_of_mem _ he)
      rw [chanOpen_iff] at this ⊢
      rwa [List.getElem?_set_ne hne]
    obtain ⟨chans1, h1, hlen, hget⟩ := ih _ hrest hnd1
    refine ⟨chans1, ?_, ?_, ?_⟩
    · simp only [sendAll, hc, hsend]
      exact h1
    · rw [hlen, List.length_set]
    · intro r
      rw [hget r]
      by_cases hr : r = ch
      · subst hr
        have hlt : r < chans.length := by
          rcases Nat.lt_or_ge r chans.length with h | h
          · exact h
          · rw [List.getElem?_eq_none h] at hc
            exact absurd hc (by simp)
        simp only [hnotin, if_false, List.map_cons, List.mem_cons, true_or, if_true, hc,
          Option.some_bind, hsend]
        rw [List.getElem?_set_self hlt]
      · have hne : ch ≠ r := fun h => hr h.symm
        rw [List.getElem?_set_ne hne]
        simp only [List.map_cons, List.mem_cons, hr, false_or]

theorem broadcast_frame {w w1 : World} {u : GameUpdate} (h : broadcast w u = some w1) :
    w1.gameState = w.gameState ∧ w1.recorded = w.recorded ∧ w1.sent = w.sent ++ [u] := by
  unfold broadcast at h
  cases hs : sendAll u w.gameState.Subscribers w.chans with
  | none => rw [hs] at h; exact absurd h (by simp)
  | some chans =>
    rw [hs] at h
    simp only [Option.map_some', Option.some.injEq] at h
    subst h
    exact ⟨rfl, rfl, rfl⟩

/-- With a well-formed registry, `broadcast` returns, changes nothing but the
channels and the log of broadcasts, and does one non-blocking send on each
registered channel. -/
theorem broadcast_spec {w : World} (u : GameUpdate) (hreg : RegistryOK w) :
    ∃ w1, broadcast w u = some w1 ∧ w1.gameState = w.gameState ∧ w1.recorded = w.recorded ∧
      w1.sent = w.sent ++ [u] ∧ w1.chans.length = w.chans.length ∧
      ∀ r, w1.chans[r]? =
        if r ∈ w.gameState.Subscribers.map Prod.snd then
          (w.chans[r]?).bind (fun c => trySend c u)
        else w.chans[r]? := by
  obtain ⟨chans1, h1, hlen, hget⟩ := sendAll_spec u w.gameState.Subscribers w.chans hreg.1 hreg.2
  refine ⟨{ w with chans := chans1, sent := w.sent ++ [u] }, ?_, rfl, rfl, rfl, hlen, hget⟩
  unfold broadcast
  rw [h1]
  rfl

theorem broadcast_chanOpen {w w1 : World} {u : GameUpdate} (hreg : RegistryOK w)
    (h : broadcast w u = some w1) (r : Nat) : chanOpen w1.chans r = chanOpen w.chans r := by
  obtain ⟨w2, h2, _, _, _, _, hget⟩ := broadcast_spec u hreg
  rw [h] at h2
  cases h2
  unfold chanOpen
  rw [hget r]
  split_ifs with hr
  · obtain ⟨e, he, her⟩ := List.mem_map.mp hr
    have := hreg.1 e he
    rw [her] at this
    obtain ⟨c, hc, hcl⟩ := chanOpen_iff.mp this
    rw [hc, Option.some_bind, trySend_open u hcl]
    by_cases hlt : c.buf.length < c.cap
    · simp [hlt, hcl]
    · simp [hlt, hcl]
  · rfl

theorem broadcast_registryOK {w w1 : World} {u : GameUpdate} (hreg : RegistryOK w)
    (h : broadcast w u = some w1) : RegistryOK w1 := by
  have hf := broadcast_frame h
  refine ⟨?_, ?_⟩
  · intro e he
    rw [broadcast_chanOpen hreg h]
    rw [hf.1] at he
    exact hreg.1 e he
  · rw [hf.1]
    exact hreg.2

/-! ## What the critical sections leave alone -/

@[simp] theorem setPet_pet (w : World) (p : Pet) : (setPet w p).gameState.Pet = p := rfl

@[simp] theorem setPet_chans (w : World) (p : Pet) : (setPet w p).chans = w.chans := rfl

@[simp] theorem setPet_sent (w : World) (p : Pet) : (setPet w p).sent = w.sent := rfl

@[simp] theorem setPet_recorded (w : World) (p : Pet) : (setPet w p).recorded = w.recorded := rfl

@[simp] theorem setPet_subscribers (w : World) (p : Pet) :
    (setPet w p).gameState.Subscribers = w.gameState.Subscribers := rfl

@[simp] theorem setPet_connected (w : World) (p : Pet) :
    (setPet w p).gameState.ConnectedUsers = w.gameState.ConnectedUsers := rfl

@[simp] theorem addAction_chans (w : World) (u a : String) (ts : Nat) :
    (addAction w u a ts).chans = w.chans := rfl

@[simp] theorem addAction_sent (w : World) (u a : String) (ts : Nat) :
    (addAction w u a ts).sent = w.sent := rfl

@[simp] theorem addAction_subscribers (w : World) (u a : String) (ts : Nat) :
    (addAction w u a ts).gameState.Subscribers = w.gameState.Subscribers := rfl

@[simp] theorem addAction_connected (w : World) (u a : String) (ts : Nat) :
    (addAction w u a ts).gameState.ConnectedUsers = w.gameState.ConnectedUsers := rfl

@[simp] theorem addAction_recorded (w : World) (u a : String) (ts : Nat) :
    (addAction w u a ts).recorded = w.recorded ++ [{ User := u, Typ := a, Timestamp := ts }] := rfl

@[simp] theorem addAction_health (w : World) (u a : String) (ts : Nat) :
    (addAction w u a ts).gameState.Pet.Health = w.gameState.Pet.Health := rfl

@[simp] theorem addAction_maxHealth (w : World) (u a : String) (ts : Nat) :
    (addAction w u a ts).gameState.Pet.MaxHealth = w.gameState.Pet.MaxHealth := rfl

@[simp] theorem addAction_mood (w : World) (u a : String) (ts : Nat) :
    (addAction w u a ts).gameState.Pet.Mood = w.gameState.Pet.Mood := rfl

@[simp] theorem addAction_name (w : World) (u a : String) (ts : Nat) :
    (addAction w u a ts).gameState.Pet.Name = w.gameState.Pet.Name := rfl

@[simp] theorem addAction_lastFed (w : World) (u a : String) (ts : Nat) :
    (addAction w u a ts).gameState.Pet.LastFed = w.gameState.Pet.LastFed := rfl

@[simp] theorem addAction_lastPet (w : World) (u a : String) (ts : Nat) :
    (addAction w u a ts).gameState.Pet.LastPet = w.gameState.Pet.LastPet := rfl

/-- A critical section touches neither the channels, nor the registry, nor the
log of broadcasts. -/
theorem lockedPart_frame (w : World) (op : Op) :
    (lockedPart w op).chans = w.chans ∧
      (lockedPart w op).gameState.Subscribers = w.gameState.Subscribers ∧
      (lockedPart w op).gameState.ConnectedUsers = w.gameState.ConnectedUsers ∧
      (lockedPart w op).sent = w.sent := by
  cases op with
  | feed user now ts =>
    simp only [lockedPart, feedLocked]
    split_ifs <;> simp
  | pet user now ts =>
    simp only [lockedPart, petLocked]
    split_ifs <;> simp
  | hit user ts =>
    simp only [lockedPart, hitLocked]
    split_ifs <;> simp
  | tick ts =>
    simp only [lockedPart, decayLocked]
    split_ifs <;> simp
  | subscribe _ => exact ⟨rfl, rfl, rfl, rfl⟩
  | unsubscribe _ => exact ⟨rfl, rfl, rfl, rfl⟩
  | getState => exact ⟨rfl, rfl, rfl, rfl⟩
  | receive _ => exact ⟨rfl, rfl, rfl, rfl⟩

theorem lockedPart_registryOK {w : World} (op : Op) (hreg : RegistryOK w) :
    RegistryOK (lockedPart w op) := by
  obtain ⟨hc, hs, _, _⟩ := lockedPart_frame w op
  unfold RegistryOK
  rw [hc, hs]
  exact hreg

/-! ## The registry stays well formed, and no call panics -/

theorem mapGet_mem {α : Type} {m : List (String × α)} {k : String} {v : α}
    (h : mapGet m k = some v) : (k, v) ∈ m := by
  unfold mapGet at h
  cases hf : m.find? (fun e => decide (e.1 = k)) with
  | none => rw [hf] at h; exact absurd h (by simp)
  | some e =>
    rw [hf] at h
    simp only [Option.map_some', Option.some.injEq] at h
    have hk := List.find?_some hf
    have hm := List.mem_of_find?_eq_some hf
    simp only [decide_eq_true_eq] at hk
    obtain ⟨a, b⟩ := e
    simp only at hk h
    subst hk
    subst h
    exact hm

theorem mapDelete_mem {α : Type} {m : List (String × α)} {k : String} {e : String × α}
    (h : e ∈ mapDelete m k) : e ∈ m ∧ e.1 ≠ k := by
  unfold mapDelete at h
  simpa using h

theorem mapDelete_nodup_snd {m : List (String × Nat)} (k : String)
    (h : (m.map Prod.snd).Nodup) : ((mapDelete m k).map Prod.snd).Nodup :=
  h.sublist ((List.filter_sublist m).map Prod.snd)

theorem chanOpen_lt {chans : List Chan} {r : Nat} (h : chanOpen chans r = true) :
    r < chans.length := by
  obtain ⟨c, hc, _⟩ := chanOpen_iff.mp h
  rcases Nat.lt_or_ge r chans.length with h1 | h1
  · exact h1
  · rw [List.getElem?_eq_none h1] at hc
    exact absurd hc (by simp)

theorem Subscribe_registryOK {w : World} (userID : String) (hreg : RegistryOK w) :
    RegistryOK (Subscribe w userID).1 := by
  have hlt : ∀ e ∈ mapDelete w.gameState.Subscribers userID, e.2 < w.chans.length :=
    fun e he => chanOpen_lt (hreg.1 e (mapDelete_mem he).1)
  refine ⟨?_, ?_⟩
  · intro e he
    simp only [Subscribe, mapSet, List.mem_append, List.mem_singleton] at he
    simp only [Subscribe]
    rcases he with he | he
    · have ho := hreg.1 e (mapDelete_mem he).1
      rw [chanOpen_iff] at ho ⊢
      rwa [List.getElem?_append_left (hlt e he)]
    · subst he
      rw [chanOpen_iff]
      exact ⟨{ buf := [], cap := 10, closed := false }, by simp, rfl⟩
  · simp only [Subscribe, mapSet, List.map_append, List.map_cons, List.map_nil]
    rw [List.nodup_append]
    refine ⟨mapDelete_nodup_snd userID hreg.2, List.nodup_singleton _, ?_⟩
    intro r hr hr1
    rw [List.mem_singleton] at hr1
    obtain ⟨e, he, her⟩ := List.mem_map.mp hr
    have := hlt e he
    omega

theorem Unsubscribe_spec {w : World} (userID : String) (hreg : RegistryOK w) :
    ∃ w1, Unsubscribe w userID = some w1 ∧ RegistryOK w1 ∧
      w1.gameState.Pet = w.gameState.Pet ∧ w1.recorded = w.recorded ∧ w1.sent = w.sent := by
  unfold Unsubscribe
  cases hg : mapGet w.gameState.Subscribers userID with
  | none =>
    exact ⟨_, rfl, hreg, rfl, rfl, rfl⟩
  | some ch =>
    have hmem := mapGet_mem hg
    obtain ⟨c, hc, hcl⟩ := chanOpen_iff.mp (hreg.1 _ hmem)
    simp only at hc
    simp only [hc, hcl, Bool.false_eq_true, if_false]
    refine ⟨_, rfl, ⟨?_, mapDelete_nodup_snd userID hreg.2⟩, rfl, rfl, rfl⟩
    intro e he
    obtain ⟨he1, he2⟩ := mapDelete_mem he
    have hne : ch ≠ e.2 := by
      intro heq
      have := List.inj_on_of_nodup_map hreg.2 hmem he1 heq
      rw [← this] at he2
      exact he2 rfl
    have ho := hreg.1 e he1
    rw [chanOpen_iff] at ho ⊢
    simp only
    rwa [List.getElem?_set_ne hne]

theorem waitForUpdate_frame (w : World) (updates : Nat) :
    (waitForUpdate w updates).1.gameState = w.gameState ∧
      (waitForUpdate w updates).1.recorded = w.recorded ∧
      (waitForUpdate w updates).1.sent = w.sent ∧
      ∀ r, chanOpen (waitForUpdate w updates).1.chans r = chanOpen w.chans r := by
  unfold waitForUpdate
  split
  · exact ⟨rfl, rfl, rfl, fun _ => rfl⟩
  · rename_i c hc
    split
    · exact ⟨rfl, rfl, rfl, fun _ => rfl⟩
    · refine ⟨rfl, rfl, rfl, ?_⟩
      intro r
      simp only [chanOpen]
      by_cases hr : updates = r
      · subst hr
        have hlt : updates < w.chans.length := by
          rcases Nat.lt_or_ge updates w.chans.length with h1 | h1
          · exact h1
          · rw [List.getElem?_eq_none h1] at hc
            exact absurd hc (by simp)
        rw [List.getElem?_set_self hlt, hc]
      · rw [List.getElem?_set_ne hr]

theorem waitForUpdate_registryOK {w : World} (updates : Nat) (hreg : RegistryOK w) :
    RegistryOK (waitForUpdate w updates).1 := by
  obtain ⟨hg, _, _, ho⟩ := waitForUpdate_frame w updates
  refine ⟨?_, ?_⟩
  · intro e he
    rw [ho]
    rw [hg] at he
    exact hreg.1 e he
  · rw [hg]
    exact hreg.2

/-- With a well-formed registry every call returns; the registry stays well
formed, and the pet and the record of actions are those at the end of the
critical section of the call. -/
theorem step_spec {w : World} (op : Op) (hreg : RegistryOK w) :
    ∃ w1, step w op = some w1 ∧ RegistryOK w1 ∧
      w1.gameState.Pet = (lockedPart w op).gameState.Pet ∧
      w1.recorded = (lockedPart w op).recorded := by
  cases op with
  | feed user now ts =>
    have hl := lockedPart_registryOK (.feed user now ts) hreg
    obtain ⟨w1, h1, hg, hr, _⟩ := broadcast_spec (feedLocked w user now ts).2.1 hl
    refine ⟨w1, ?_, broadcast_registryOK hl h1, by rw [hg], hr⟩
    simp only [lockedPart] at h1
    simp only [step, FeedPet, h1, Option.map_some']
  | pet user now ts =>
    have hl := lockedPart_registryOK (.pet user now ts) hreg
    cases hu : (petLocked w user now ts).2.1 with
    | none =>
      refine ⟨(petLocked w user now ts).1, ?_, hl, rfl, rfl⟩
      simp only [step, PetPet, hu, Option.map_some']
    | some u =>
      obtain ⟨w1, h1, hg, hr, _⟩ := broadcast_spec u hl
      refine ⟨w1, ?_, broadcast_registryOK hl h1, by rw [hg], hr⟩
      simp only [lockedPart] at h1
      simp only [step, PetPet, hu, h1, Option.map_some']
  | hit user ts =>
    have hl := lockedPart_registryOK (.hit user ts) hreg
    cases hu : (hitLocked w user ts).2.1 with
    | none =>
      refine ⟨(hitLocked w user ts).1, ?_, hl, rfl, rfl⟩
      simp only [step, HitPet, hu, Option.map_some']
    | some u =>
      obtain ⟨w1, h1, hg, hr, _⟩ := broadcast_spec u hl
      refine ⟨w1, ?_, broadcast_registryOK hl h1, by rw [hg], hr⟩
      simp only [lockedPart] at h1
      simp only [step, HitPet, hu, h1, Option.map_some']
  | tick ts =>
    have hl := lockedPart_registryOK (.tick ts) hreg
    obtain ⟨w1, h1, hg, hr, _⟩ :=
      broadcast_spec { Pet := (decayLocked w ts).gameState.Pet, Message := "" } hl
    exact ⟨w1, h1, broadcast_registryOK hl h1, by rw [hg], hr⟩
  | subscribe userID =>
    exact ⟨_, rfl, Subscribe_registryOK userID hreg, rfl, rfl⟩
  | unsubscribe userID =>
    obtain ⟨w1, h1, hr1, hp, hrec, _⟩ := Unsubscribe_spec userID hreg
    exact ⟨w1, h1, hr1, hp, hrec⟩
  | getState => exact ⟨w, rfl, hreg, rfl, rfl⟩
  | receive updates =>
    obtain ⟨hg, hrec, _, _⟩ := waitForUpdate_frame w updates
    exact ⟨_, rfl, waitForUpdate_registryOK updates hreg, by rw [hg]; rfl, hrec⟩

theorem InitGame_registryOK (t1 t2 : Nat) : RegistryOK (InitGame t1 t2) := by
  refine ⟨?_, ?_⟩
  · intro e he
    simp [InitGame] at he
  · simp [InitGame]

/-- Induction over runs: a property of the pet and the record of actions that
holds at the start and is kept by every critical section holds after every
run, and every run from a well-formed registry returns. -/
theorem run_invariant (P : World → Prop)
    (hcongr : ∀ w w1 : World, w1.gameState.Pet = w.gameState.Pet → w1.recorded = w.recorded →
      P w → P w1)
    (hstep : ∀ w op, P w → P (lockedPart w op)) :
    ∀ (ops : List Op) (w : World), RegistryOK w → P w →
      ∃ w1, run w ops = some w1 ∧ RegistryOK w1 ∧ P w1 := by
  intro ops
  induction ops with
  | nil =>
    intro w hreg hP
    exact ⟨w, rfl, hreg, hP⟩
  | cons op ops ih =>
    intro w hreg hP
    obtain ⟨w1, h1, hreg1, hpet, hrec⟩ := step_spec op hreg
    obtain ⟨w2, h2, hreg2, hP2⟩ := ih w1 hreg1 (hcongr _ _ hpet hrec (hstep w op hP))
    refine ⟨w2, ?_, hreg2, hP2⟩
    simp only [run, h1]
    exact h2

/-! ## Health bounds -/

theorem lockedPart_petBounds (w : World) (op : Op) (h : PetBounds w) :
    PetBounds (lockedPart w op) := by
  obtain ⟨hm, h0, h1⟩ := h
  unfold PetBounds
  cases op with
  | feed user now ts =>
    simp only [lockedPart, feedLocked]
    split_ifs <;> simp only [setPet_pet, addAction_health, addAction_maxHealth] at * <;>
      first
        | omega
        | (simp only [wrapInt] at *; omega)
  | pet user now ts =>
    simp only [lockedPart, petLocked]
    split_ifs <;> simp only [setPet_pet, addAction_health, addAction_maxHealth] at * <;>
      first
        | omega
        | (simp only [wrapInt] at *; omega)
  | hit user ts =>
    simp only [lockedPart, hitLocked]
    split_ifs <;> simp only [setPet_pet, addAction_health, addAction_maxHealth] at * <;>
      first
        | omega
        | (simp only [wrapInt] at *; omega)
  | tick ts =>
    simp only [lockedPart, decayLocked]
    split_ifs <;> simp only [setPet_pet, addAction_health, addAction_maxHealth] at * <;>
      first
        | omega
        | (simp only [wrapInt] at *; omega)
  | subscribe _ => exact ⟨hm, h0, h1⟩
  | unsubscribe _ => exact ⟨hm, h0, h1⟩
  | getState => exact ⟨hm, h0, h1⟩
  | receive _ => exact ⟨hm, h0, h1⟩

theorem petBounds_congr (w w1 : World) (hp : w1.gameState.Pet = w.gameState.Pet)
    (_hr : w1.recorded = w.recorded) (h : PetBounds w) : PetBounds w1 := by
  unfold PetBounds at *
  rw [hp]
  exact h

theorem InitGame_petBounds (t1 t2 : Nat) : PetBounds (InitGame t1 t2) := by
  unfold PetBounds InitGame
  simp

/-- C1: from `InitGame`, every finite sequence of calls (`FeedPet`, `PetPet`,
`HitPet` with arbitrary user strings, decay ticks, and also `Subscribe`,
`Unsubscribe`, `GetGameState` and receives) runs to completion, and in the
state it ends in `0 ≤ Health ≤ MaxHealth`.  Every prefix of a sequence is a
sequence, so the bound holds after every operation. -/
theorem health_within_bounds (t1 t2 : Nat) (ops : List Op) :
    ∃ w, run (InitGame t1 t2) ops = some w ∧
      0 ≤ w.gameState.Pet.Health ∧ w.gameState.Pet.Health ≤ w.gameState.Pet.MaxHealth := by
  obtain ⟨w, hrun, _, hb⟩ :=
    run_invariant PetBounds petBounds_congr lockedPart_petBounds ops (InitGame t1 t2)
      (InitGame_registryOK t1 t2) (InitGame_petBounds t1 t2)
  exact ⟨w, hrun, hb.2.1, hb.2.2⟩

/-! ## Mood of a dead pet -/

theorem lockedPart_deadIffZero (w : World) (op : Op) (h : PetBounds w ∧ DeadIffZero w) :
    PetBounds (lockedPart w op) ∧ DeadIffZero (lockedPart w op) := by
  refine ⟨lockedPart_petBounds w op h.1, ?_⟩
  obtain ⟨⟨hm, h0, h1⟩, hd⟩ := h
  unfold DeadIffZero at *
  cases op with
  | feed user now ts =>
    simp only [lockedPart, feedLocked]
    split_ifs <;>
      simp only [setPet_pet, addAction_health, addAction_maxHealth, addAction_mood] at * <;>
      simp <;>
      first
        | omega
        | (simp only [wrapInt] at *; omega)
  | pet user now ts =>
    simp only [lockedPart, petLocked]
    split_ifs <;>
      simp only [setPet_pet, addAction_health, addAction_maxHealth, addAction_mood] at * <;>
      simp_all <;>
      first
        | omega
        | (simp only [wrapInt] at *; omega)
  | hit user ts =>
    simp only [lockedPart, hitLocked]
    split_ifs <;>
      simp only [setPet_pet, addAction_health, addAction_maxHealth, addAction_mood] at * <;>
      first
        | exact hd
        | (simp; omega)
  | tick ts =>
    simp only [lockedPart, decayLocked]
    split_ifs <;>
      simp only [setPet_pet, addAction_health, addAction_maxHealth, addAction_mood] at * <;>
      simp_all <;>
      omega
  | subscribe _ => exact hd
  | unsubscribe _ => exact hd
  | getState => exact hd
  | receive _ => exact hd

theorem deadIffZero_congr (w w1 : World) (hp : w1.gameState.Pet = w.gameState.Pet)
    (hr : w1.recorded = w.recorded) (h : PetBounds w ∧ DeadIffZero w) :
    PetBounds w1 ∧ DeadIffZero w1 := by
  refine ⟨petBounds_congr w w1 hp hr h.1, ?_⟩
  have := h.2
  unfold DeadIffZero at *
  rw [hp]
  exact this

theorem InitGame_deadIffZero (t1 t2 : Nat) : DeadIffZero (InitGame t1 t2) := by
  unfold DeadIffZero InitGame
  simp

/-! ## The calls, in terms of their critical sections -/

/-- With a well-formed registry `FeedPet` returns: the result is that of its
critical section followed by one `broadcast` of the update built there. -/
theorem FeedPet_spec {w : World} (user : String) (now ts : Nat) (hreg : RegistryOK w) :
    ∃ w1, FeedPet w user now ts = some (w1, (feedLocked w user now ts).2.2) ∧
      w1.gameState = (feedLocked w user now ts).1.gameState ∧
      w1.recorded = (feedLocked w user now ts).1.recorded ∧
      w1.sent = w.sent ++ [(feedLocked w user now ts).2.1] := by
  have hl := lockedPart_registryOK (.feed user now ts) hreg
  obtain ⟨w1, h1, hg, hr, hs, _⟩ := broadcast_spec (feedLocked w user now ts).2.1 hl
  simp only [lockedPart] at h1 hg hr hs
  refine ⟨w1, ?_, hg, hr, ?_⟩
  · simp only [FeedPet, h1, Option.map_some']
  · rw [hs]
    have := (lockedPart_frame w (.feed user now ts)).2.2.2
    simp only [lockedPart] at this
    rw [this]

theorem feedLocked_dead {w : World} (user : String) (now ts : Nat)
    (h : w.gameState.Pet.Health ≤ 0) :
    feedLocked w user now ts =
      (addAction (setPet w { w.gameState.Pet with Health := 30, Mood := "revived" })
          user "revived" ts,
        { Pet := (addAction (setPet w { w.gameState.Pet with Health := 30, Mood := "revived" })
            user "revived" ts).gameState.Pet,
          Message := user ++ " revived Jankypet!" },
        "You revived Jankypet!") := by
  unfold feedLocked
  rw [if_pos h]
  rfl

theorem addAction_actions (w : World) (u a : String) (ts : Nat) :
    (addAction w u a ts).gameState.Pet.Actions =
      (w.gameState.Pet.Actions ++ [({ User := u, Typ := a, Timestamp := ts } : Action)]).drop
        (w.gameState.Pet.Actions.length + 1 - 5) := by
  simp only [addAction, List.length_append, List.length_singleton]
  split_ifs with h
  · rfl
  · have : w.gameState.Pet.Actions.length + 1 - 5 = 0 := by omega
    rw [this, List.drop_zero]

/-- C2: from `InitGame`, every finite sequence of calls runs to completion, and
in the state it ends in `Mood == "dead"` holds exactly when `Health == 0`.  A
revival (`FeedPet` at `Health == 0`) leads to `Mood == "revived"` with
`Health == 30`, where neither side holds. -/
theorem dead_iff_health_zero (t1 t2 : Nat) (ops : List Op) :
    ∃ w, run (InitGame t1 t2) ops = some w ∧
      (w.gameState.Pet.Mood = "dead" ↔ w.gameState.Pet.Health = 0) ∧
      (w.gameState.Pet.Health = 0 → ∀ (user : String) (now ts : Nat),
        ∃ w1 ret, FeedPet w user now ts = some (w1, ret) ∧
          w1.gameState.Pet.Mood = "revived" ∧ w1.gameState.Pet.Health = 30 ∧
          w1.gameState.Pet.Mood ≠ "dead" ∧ w1.gameState.Pet.Health ≠ 0) := by
  obtain ⟨w, hrun, hreg, _, hd⟩ :=
    run_invariant (fun w => PetBounds w ∧ DeadIffZero w) deadIffZero_congr
      lockedPart_deadIffZero ops (InitGame t1 t2) (InitGame_registryOK t1 t2)
      ⟨InitGame_petBounds t1 t2, InitGame_deadIffZero t1 t2⟩
  refine ⟨w, hrun, hd, ?_⟩
  intro h0 user now ts
  obtain ⟨w1, h1, hg, _, _⟩ := FeedPet_spec user now ts hreg
  rw [feedLocked_dead user now ts (le_of_eq h0)] at h1 hg
  refine ⟨w1, _, h1, ?_, ?_, ?_, ?_⟩ <;> rw [hg] <;> simp

/-! ## The bounded action log -/

theorem drop_lastFive_append {α : Type} (R : List α) (a : α) :
    (R.drop (R.length - 5) ++ [a]).drop ((R.drop (R.length - 5)).length + 1 - 5) =
      (R ++ [a]).drop ((R ++ [a]).length - 5) := by
  rw [List.length_drop, List.length_append, List.length_singleton]
  by_cases h : R.length ≤ 4
  · have e1 : R.length - 5 = 0 := by omega
    have e2 : R.length + 1 - 5 = 0 := by omega
    have e3 : R.length - 0 + 1 - 5 = 0 := by omega
    rw [e1, e2, e3, List.drop_zero, List.drop_zero, List.drop_zero]
  · have e1 : R.length - (R.length - 5) + 1 - 5 = 1 := by omega
    have e2 : R.length + 1 - 5 = R.length - 5 + 1 := by omega
    have hlen : 1 ≤ (R.drop (R.length - 5)).length := by
      rw [List.length_drop]
      omega
    rw [e1, e2, List.drop_append_of_le_length hlen,
      List.drop_append_of_le_length (by omega), List.drop_drop]

theorem addAction_lastFive {w : World} (u a : String) (ts : Nat) (h : ActionsAreLastFive w) :
    ActionsAreLastFive (addAction w u a ts) := by
  unfold ActionsAreLastFive at *
  rw [addAction_actions, addAction_recorded, h]
  exact drop_lastFive_append _ _

theorem setPet_lastFive {w : World} {p : Pet} (hp : p.Actions = w.gameState.Pet.Actions)
    (h : ActionsAreLastFive w) : ActionsAreLastFive (setPet w p) := by
  unfold ActionsAreLastFive at *
  rw [setPet_pet, setPet_recorded, hp]
  exact h

theorem lockedPart_lastFive (w : World) (op : Op) (h : ActionsAreLastFive w) :
    ActionsAreLastFive (lockedPart w op) := by
  cases op with
  | feed user now ts =>
    simp only [lockedPart, feedLocked]
    split_ifs <;>
      exact addAction_lastFive _ _ _
        (setPet_lastFive rfl (setPet_lastFive rfl (setPet_lastFive rfl h)))
  | pet user now ts =>
    simp only [lockedPart, petLocked]
    split_ifs <;>
      first
        | exact h
        | exact addAction_lastFive _ _ _ (setPet_lastFive rfl (setPet_lastFive rfl
            (setPet_lastFive rfl (setPet_lastFive rfl h))))
  | hit user ts =>
    simp only [lockedPart, hitLocked]
    split_ifs <;>
      first
        | exact h
        | exact addAction_lastFive _ _ _ (setPet_lastFive rfl (setPet_lastFive rfl
            (setPet_lastFive rfl h)))
  | tick ts =>
    simp only [lockedPart, decayLocked]
    split_ifs <;>
      first
        | exact h
        | exact addAction_lastFive _ _ _ (setPet_lastFive rfl (setPet_lastFive rfl
            (setPet_lastFive rfl h)))
  | subscribe _ => exact h
  | unsubscribe _ => exact h
  | getState => exact h
  | receive _ => exact h

theorem lastFive_congr (w w1 : World) (hp : w1.gameState.Pet = w.gameState.Pet)
    (hr : w1.recorded = w.recorded) (h : ActionsAreLastFive w) : ActionsAreLastFive w1 := by
  unfold ActionsAreLastFive at *
  rw [hp, hr]
  exact h

/-- C3: from `InitGame`, every finite sequence of calls runs to completion, and
in the state it ends in, with `n` the number of actions recorded by
`addAction` since initialisation, `Pet.Actions` has `min n 5 ≤ 5` entries and
is the list of the last `min n 5` recorded actions, oldest first. -/
theorem actions_are_last_five (t1 t2 : Nat) (ops : List Op) :
    ∃ w, run (InitGame t1 t2) ops = some w ∧
      w.gameState.Pet.Actions.length ≤ 5 ∧
      w.gameState.Pet.Actions.length = min w.recorded.length 5 ∧
      w.gameState.Pet.Actions =
        w.recorded.drop (w.recorded.length - min w.recorded.length 5) := by
  obtain ⟨w, hrun, _, h5⟩ :=
    run_invariant ActionsAreLastFive lastFive_congr lockedPart_lastFive ops (InitGame t1 t2)
      (InitGame_registryOK t1 t2) rfl
  unfold ActionsAreLastFive at h5
  have hlen : w.gameState.Pet.Actions.length = min w.recorded.length 5 := by
    rw [h5, List.length_drop]
    omega
  refine ⟨w, hrun, ?_, hlen, ?_⟩
  · rw [hlen]
    exact Nat.min_le_right _ _
  · rw [h5]
    congr 1
    omega

/-! ## `FeedPet` -/

/-- C4: in every state with `Health == 0` (and a well-formed registry, so that
`broadcast` does not panic), `FeedPet(u)` returns `"You revived Jankypet!"`;
afterwards `Health == 30` and `Mood == "revived"`, exactly one action
`{User: u, Type: "revived"}` has been appended to the log (which then keeps its
last five entries), nothing else of the pet has changed, and exactly one
`GameUpdate` has been broadcast, carrying the new pet and the message
`u ++ " revived Jankypet!"`.  The result is a function of the state at the
call alone, so nothing of the health before death enters it. -/
theorem feed_dead_revives (w : World) (user : String) (now ts : Nat)
    (hreg : RegistryOK w) (h0 : w.gameState.Pet.Health = 0) :
    ∃ w1, FeedPet w user now ts = some (w1, "You revived Jankypet!") ∧
      w1.gameState.Pet.Health = 30 ∧
      w1.gameState.Pet.Mood = "revived" ∧
      w1.recorded = w.recorded ++ [{ User := user, Typ := "revived", Timestamp := ts }] ∧
      w1.gameState.Pet.Actions =
        (w.gameState.Pet.Actions ++
          [({ User := user, Typ := "revived", Timestamp := ts } : Action)]).drop
          (w.gameState.Pet.Actions.length + 1 - 5) ∧
      w1.gameState.Pet =
        { w.gameState.Pet with
          Health := 30
          Mood := "revived"
          Actions := w1.gameState.Pet.Actions } ∧
      w1.sent = w.sent ++
        [{ Pet := w1.gameState.Pet, Message := user ++ " revived Jankypet!" }] := by
  obtain ⟨w1, h1, hg, hr, hs⟩ := FeedPet_spec user now ts hreg
  rw [feedLocked_dead user now ts (le_of_eq h0)] at h1 hg hr hs
  simp only at h1 hg hr hs
  refine ⟨w1, h1, ?_, ?_, ?_, ?_, ?_, ?_⟩
  · rw [hg]; rfl
  · rw [hg]; rfl
  · rw [hr]; rfl
  · rw [hg, addAction_actions]; rfl
  · rw [hg]; rfl
  · rw [hs, hg]

theorem feed_dead_revives_witness :
    RegistryOK (sampleWorld 0 "dead" "killed") ∧ (sampleWorld 0 "dead" "killed").gameState.Pet.Health = 0 ∧
      ∃ w1, FeedPet (sampleWorld 0 "dead" "killed") "carl" 7 8 = some (w1, "You revived Jankypet!") ∧
        w1.gameState.Pet.Health = 30 ∧
        w1.gameState.Pet.Mood = "revived" ∧
        w1.recorded = (sampleWorld 0 "dead" "killed").recorded ++
          [{ User := "carl", Typ := "revived", Timestamp := 8 }] ∧
        w1.gameState.Pet.Actions =
          ((sampleWorld 0 "dead" "killed").gameState.Pet.Actions ++
            [({ User := "carl", Typ := "revived", Timestamp := 8 } : Action)]).drop
            ((sampleWorld 0 "dead" "killed").gameState.Pet.Actions.length + 1 - 5) ∧
        w1.gameState.Pet =
          { (sampleWorld 0 "dead" "killed").gameState.Pet with
            Health := 30
            Mood := "revived"
            Actions := w1.gameState.Pet.Actions } ∧
        w1.sent = (sampleWorld 0 "dead" "killed").sent ++
          [{ Pet := w1.gameState.Pet, Message := "carl" ++ " revived Jankypet!" }] :=
  ⟨by decide, rfl, feed_dead_revives (sampleWorld 0 "dead" "killed") "carl" 7 8 (by decide) rfl⟩

theorem feedLocked_live {w : World} (user : String) (now ts : Nat)
    (hpos : 0 < w.gameState.Pet.Health) (hfit : w.gameState.Pet.Health + 15 ≤ maxInt) :
    feedLocked w user now ts =
      (addAction (setPet w { w.gameState.Pet with
          Health := min (w.gameState.Pet.Health + 15) w.gameState.Pet.MaxHealth
          LastFed := now
          Mood := "happy" }) user "fed" ts,
        { Pet := (addAction (setPet w { w.gameState.Pet with
            Health := min (w.gameState.Pet.Health + 15) w.gameState.Pet.MaxHealth
            LastFed := now
            Mood := "happy" }) user "fed" ts).gameState.Pet,
          Message := user ++ " fed Jankypet!" },
        "You fed Jankypet!") := by
  have hw : wrapInt (w.gameState.Pet.Health + 15) = w.gameState.Pet.Health + 15 :=
    wrapInt_eq_self (by unfold minInt; omega) hfit
  unfold feedLocked
  rw [if_neg (not_le.mpr hpos)]
  simp only [setPet_pet, hw]
  by_cases hgt : w.gameState.Pet.Health + 15 > w.gameState.Pet.MaxHealth
  · rw [if_pos hgt, min_eq_right (le_of_lt hgt)]
    rfl
  · rw [if_neg hgt, min_eq_left (not_lt.mp hgt)]
    rfl

/-- C5: in every state with `Health == h > 0` (with a well-formed registry, and
`h + 15` within the range of Go's `int`, as it is whenever `h ≤ MaxHealth = 100`),
`FeedPet(u)` at time `now` returns `"You fed Jankypet!"`; afterwards
`Health == min(h + 15, MaxHealth)`, `Mood == "happy"`, `LastFed == now`, exactly
one action `{User: u, Type: "fed"}` has been appended to the log, nothing else
of the pet has changed, and exactly one `GameUpdate` has been broadcast,
carrying the new pet and the message `u ++ " fed Jankypet!"`. -/
theorem feed_live_heals (w : World) (user : String) (now ts : Nat)
    (hreg : RegistryOK w) (hpos : 0 < w.gameState.Pet.Health)
    (hfit : w.gameState.Pet.Health + 15 ≤ maxInt) :
    ∃ w1, FeedPet w user now ts = some (w1, "You fed Jankypet!") ∧
      w1.gameState.Pet.Health =
        min (w.gameState.Pet.Health + 15) w.gameState.Pet.MaxHealth ∧
      w1.gameState.Pet.Mood = "happy" ∧
      w1.gameState.Pet.LastFed = now ∧
      w1.recorded = w.recorded ++ [{ User := user, Typ := "fed", Timestamp := ts }] ∧
      w1.gameState.Pet.Actions =
        (w.gameState.Pet.Actions ++
          [({ User := user, Typ := "fed", Timestamp := ts } : Action)]).drop
          (w.gameState.Pet.Actions.length + 1 - 5) ∧
      w1.gameState.Pet =
        { w.gameState.Pet with
          Health := min (w.gameState.Pet.Health + 15) w.gameState.Pet.MaxHealth
          Mood := "happy"
          LastFed := now
          Actions := w1.gameState.Pet.Actions } ∧
      w1.sent = w.sent ++ [{ Pet := w1.gameState.Pet, Message := user ++ " fed Jankypet!" }] := by
  obtain ⟨w1, h1, hg, hr, hs⟩ := FeedPet_spec user now ts hreg
  rw [feedLocked_live user now ts hpos hfit] at h1 hg hr hs
  simp only at h1 hg hr hs
  refine ⟨w1, h1, ?_, ?_, ?_, ?_, ?_, ?_, ?_⟩
  · rw [hg]; rfl
  · rw [hg]; rfl
  · rw [hg]; rfl
  · rw [hr]; rfl
  · rw [hg, addAction_actions]; rfl
  · rw [hg]; rfl
  · rw [hs, hg]

theorem feed_live_heals_witness :
    RegistryOK (sampleWorld 90 "happy" "petted") ∧ 0 < (sampleWorld 90 "happy" "petted").gameState.Pet.Health ∧
      (sampleWorld 90 "happy" "petted").gameState.Pet.Health + 15 ≤ maxInt ∧
      ∃ w1, FeedPet (sampleWorld 90 "happy" "petted") "carl" 7 8 = some (w1, "You fed Jankypet!") ∧
        w1.gameState.Pet.Health =
          min ((sampleWorld 90 "happy" "petted").gameState.Pet.Health + 15)
            (sampleWorld 90 "happy" "petted").gameState.Pet.MaxHealth ∧
        w1.gameState.Pet.Mood = "happy" ∧
        w1.gameState.Pet.LastFed = 7 ∧
        w1.recorded = (sampleWorld 90 "happy" "petted").recorded ++
          [{ User := "carl", Typ := "fed", Timestamp := 8 }] ∧
        w1.gameState.Pet.Actions =
          ((sampleWorld 90 "happy" "petted").gameState.Pet.Actions ++
            [({ User := "carl", Typ := "fed", Timestamp := 8 } : Action)]).drop
            ((sampleWorld 90 "happy" "petted").gameState.Pet.Actions.length + 1 - 5) ∧
        w1.gameState.Pet =
          { (sampleWorld 90 "happy" "petted").gameState.Pet with
            Health := min ((sampleWorld 90 "happy" "petted").gameState.Pet.Health + 15)
              (sampleWorld 90 "happy" "petted").gameState.Pet.MaxHealth
            Mood := "happy"
            LastFed := 7
            Actions := w1.gameState.Pet.Actions } ∧
        w1.sent = (sampleWorld 90 "happy" "petted").sent ++
          [{ Pet := w1.gameState.Pet, Message := "carl" ++ " fed Jankypet!" }] :=
  ⟨by decide, by decide, by decide,
    feed_live_heals (sampleWorld 90 "happy" "petted") "carl" 7 8 (by decide) (by decide) (by decide)⟩

/-! ## `PetPet` -/

/-- When the critical section of `PetPet` reaches its end, the call returns
after one `broadcast` of the update built there. -/
theorem PetPet_spec {w : World} {u : GameUpdate} (user : String) (now ts : Nat)
    (hreg : RegistryOK w) (hu : (petLocked w user now ts).2.1 = some u) :
    ∃ w1, PetPet w user now ts = some (w1, (petLocked w user now ts).2.2) ∧
      w1.gameState = (petLocked w user now ts).1.gameState ∧
      w1.recorded = (petLocked w user now ts).1.recorded ∧
      w1.sent = w.sent ++ [u] := by
  have hl := lockedPart_registryOK (.pet user now ts) hreg
  obtain ⟨w1, h1, hg, hr, hs, _⟩ := broadcast_spec u hl
  simp only [lockedPart] at h1 hg hr hs
  refine ⟨w1, ?_, hg, hr, ?_⟩
  · simp only [PetPet, hu, h1, Option.map_some']
  · rw [hs]
    have := (lockedPart_frame w (.pet user now ts)).2.2.2
    simp only [lockedPart] at this
    rw [this]

theorem petLocked_live {w : World} (user : String) (now ts : Nat)
    (hpos : 0 < w.gameState.Pet.Health) (hfit : w.gameState.Pet.Health + 5 ≤ maxInt) :
    petLocked w user now ts =
      (addAction (setPet w { w.gameState.Pet with
          Health := min (w.gameState.Pet.Health + 5) w.gameState.Pet.MaxHealth
          LastPet := now
          Mood := (if w.gameState.Pet.Mood = "happy" then "happy" else "content") })
          user "petted" ts,
        some (GameUpdate.mk (addAction (setPet w { w.gameState.Pet with
            Health := min (w.gameState.Pet.Health + 5) w.gameState.Pet.MaxHealth
            LastPet := now
            Mood := (if w.gameState.Pet.Mood = "happy" then "happy" else "content") })
            user "petted" ts).gameState.Pet (user ++ " petted Jankypet!")),
        "You petted Jankypet!") := by
  have hw : wrapInt (w.gameState.Pet.Health + 5) = w.gameState.Pet.Health + 5 :=
    wrapInt_eq_self (by unfold minInt; omega) hfit
  unfold petLocked
  rw [if_neg (not_le.mpr hpos)]
  simp only [setPet_pet, hw]
  by_cases hgt : w.gameState.Pet.Health + 5 > w.gameState.Pet.MaxHealth
  · rw [if_pos hgt, min_eq_right (le_of_lt hgt)]
    by_cases hm : w.gameState.Pet.Mood = "happy"
    · simp only [setPet_pet, hm, ne_eq, not_true_eq_false, if_false, if_true]
      rw [← hm]
      rfl
    · simp only [setPet_pet, hm, ne_eq, not_false_eq_true, if_true, if_false]
      rfl
  · rw [if_neg hgt, min_eq_left (not_lt.mp hgt)]
    by_cases hm : w.gameState.Pet.Mood = "happy"
    · simp only [setPet_pet, hm, ne_eq, not_true_eq_false, if_false, if_true]
      rw [← hm]
      rfl
    · simp only [setPet_pet, hm, ne_eq, not_false_eq_true, if_true, if_false]
      rfl

/-- C6: in every state with `Health == h > 0` (with a well-formed registry, and
`h + 5` within the range of Go's `int`, as it is whenever `h ≤ MaxHealth = 100`),
`PetPet(u)` at time `now` returns `"You petted Jankypet!"`; afterwards
`Health == min(h + 5, MaxHealth)`, `LastPet == now`, `Mood` is `"happy"` if it
was `"happy"` before and `"content"` otherwise, exactly one action
`{User: u, Type: "petted"}` has been appended to the log, nothing else of the
pet has changed, and exactly one `GameUpdate` has been broadcast, carrying the
new pet and the message `u ++ " petted Jankypet!"`. -/
theorem pet_live_soothes (w : World) (user : String) (now ts : Nat)
    (hreg : RegistryOK w) (hpos : 0 < w.gameState.Pet.Health)
    (hfit : w.gameState.Pet.Health + 5 ≤ maxInt) :
    ∃ w1, PetPet w user now ts = some (w1, "You petted Jankypet!") ∧
      w1.gameState.Pet.Health =
        min (w.gameState.Pet.Health + 5) w.gameState.Pet.MaxHealth ∧
      w1.gameState.Pet.LastPet = now ∧
      (w.gameState.Pet.Mood = "happy" → w1.gameState.Pet.Mood = "happy") ∧
      (w.gameState.Pet.Mood ≠ "happy" → w1.gameState.Pet.Mood = "content") ∧
      w1.recorded = w.recorded ++ [{ User := user, Typ := "petted", Timestamp := ts }] ∧
      w1.gameState.Pet.Actions =
        (w.gameState.Pet.Actions ++
          [({ User := user, Typ := "petted", Timestamp := ts } : Action)]).drop
          (w.gameState.Pet.Actions.length + 1 - 5) ∧
      w1.gameState.Pet =
        { w.gameState.Pet with
          Health := min (w.gameState.Pet.Health + 5) w.gameState.Pet.MaxHealth
          Mood := w1.gameState.Pet.Mood
          LastPet := now
          Actions := w1.gameState.Pet.Actions } ∧
      w1.sent = w.sent ++
        [{ Pet := w1.gameState.Pet, Message := user ++ " petted Jankypet!" }] := by
  have hl := petLocked_live user now ts hpos hfit
  obtain ⟨w1, h1, hg, hr, hs⟩ := PetPet_spec user now ts hreg (by rw [hl])
  rw [hl] at h1 hg hr
  simp only at h1 hg hr
  refine ⟨w1, h1, ?_, ?_, ?_, ?_, ?_, ?_, ?_, ?_⟩
  · rw [hg]; rfl
  · rw [hg]; rfl
  · intro hm
    rw [hg]
    simp [hm]
  · intro hm
    rw [hg]
    simp [hm]
  · rw [hr]; rfl
  · rw [hg, addAction_actions]; rfl
  · rw [hg]; rfl
  · rw [hs, hg]

theorem pet_live_soothes_witness :
    RegistryOK (sampleWorld 37 "sad" "hit") ∧
      0 < (sampleWorld 37 "sad" "hit").gameState.Pet.Health ∧
      (sampleWorld 37 "sad" "hit").gameState.Pet.Health + 5 ≤ maxInt ∧
      ∃ w1, PetPet (sampleWorld 37 "sad" "hit") "carl" 7 8 =
          some (w1, "You petted Jankypet!") ∧
        w1.gameState.Pet.Health =
          min ((sampleWorld 37 "sad" "hit").gameState.Pet.Health + 5)
            (sampleWorld 37 "sad" "hit").gameState.Pet.MaxHealth ∧
        w1.gameState.Pet.LastPet = 7 ∧
        ((sampleWorld 37 "sad" "hit").gameState.Pet.Mood = "happy" →
          w1.gameState.Pet.Mood = "happy") ∧
        ((sampleWorld 37 "sad" "hit").gameState.Pet.Mood ≠ "happy" →
          w1.gameState.Pet.Mood = "content") ∧
        w1.recorded = (sampleWorld 37 "sad" "hit").recorded ++
          [{ User := "carl", Typ := "petted", Timestamp := 8 }] ∧
        w1.gameState.Pet.Actions =
          ((sampleWorld 37 "sad" "hit").gameState.Pet.Actions ++
            [({ User := "carl", Typ := "petted", Timestamp := 8 } : Action)]).drop
            ((sampleWorld 37 "sad" "hit").gameState.Pet.Actions.length + 1 - 5) ∧
        w1.gameState.Pet =
          { (sampleWorld 37 "sad" "hit").gameState.Pet with
            Health := min ((sampleWorld 37 "sad" "hit").gameState.Pet.Health + 5)
              (sampleWorld 37 "sad" "hit").gameState.Pet.MaxHealth
            Mood := w1.gameState.Pet.Mood
            LastPet := 7
            Actions := w1.gameState.Pet.Actions } ∧
        w1.sent = (sampleWorld 37 "sad" "hit").sent ++
          [{ Pet := w1.gameState.Pet, Message := "carl" ++ " petted Jankypet!" }] :=
  ⟨by decide, by decide, by decide,
    pet_live_soothes (sampleWorld 37 "sad" "hit") "carl" 7 8 (by decide) (by decide)
      (by decide)⟩

/-! ## `HitPet` -/

/-- When the critical section of `HitPet` reaches its end, the call returns
after one `broadcast` of the update built there. -/
theorem HitPet_spec {w : World} {u : GameUpdate} (user : String) (ts : Nat)
    (hreg : RegistryOK w) (hu : (hitLocked w user ts).2.1 = some u) :
    ∃ w1, HitPet w user ts = some (w1, (hitLocked w user ts).2.2) ∧
      w1.gameState = (hitLocked w user ts).1.gameState ∧
      w1.recorded = (hitLocked w user ts).1.recorded ∧
      w1.sent = w.sent ++ [u] := by
  have hl := lockedPart_registryOK (.hit user ts) hreg
  obtain ⟨w1, h1, hg, hr, hs, _⟩ := broadcast_spec u hl
  simp only [lockedPart] at h1 hg hr hs
  refine ⟨w1, ?_, hg, hr, ?_⟩
  · simp only [HitPet, hu, h1, Option.map_some']
  · rw [hs]
    have := (lockedPart_frame w (.hit user ts)).2.2.2
    simp only [lockedPart] at this
    rw [this]

theorem hitLocked_fatal {w : World} (user : String) (ts : Nat)
    (hpos : 0 < w.gameState.Pet.Health) (hle : w.gameState.Pet.Health ≤ 20) :
    hitLocked w user ts =
      (addAction (setPet w { w.gameState.Pet with Health := 0, Mood := "dead" })
          user "killed" ts,
        some (GameUpdate.mk (addAction (setPet w { w.gameState.Pet with
            Health := 0, Mood := "dead" }) user "killed" ts).gameState.Pet
          (user ++ " hit Jankypet!")),
        "You killed Jankypet! ðŸ’€") := by
  have hw : wrapInt (w.gameState.Pet.Health - 20) = w.gameState.Pet.Health - 20 :=
    wrapInt_eq_self (by unfold minInt; omega) (by unfold maxInt; omega)
  unfold hitLocked
  rw [if_neg (not_le.mpr hpos)]
  simp only [setPet_pet, hw]
  by_cases hlt : w.gameState.Pet.Health - 20 < 0
  · rw [if_pos hlt]
    simp only [setPet_pet, le_refl, if_true]
    rfl
  · have h20 : w.gameState.Pet.Health - 20 = 0 := by omega
    rw [if_neg hlt]
    simp only [setPet_pet, h20, le_refl, if_true]
    rfl

theorem hitLocked_survives {w : World} (user : String) (ts : Nat)
    (hgt : 20 < w.gameState.Pet.Health) (hty : w.gameState.Pet.Health ≤ maxInt) :
    hitLocked w user ts =
      (addAction (setPet w { w.gameState.Pet with
          Health := w.gameState.Pet.Health - 20, Mood := "angry" }) user "hit" ts,
        some (GameUpdate.mk (addAction (setPet w { w.gameState.Pet with
            Health := w.gameState.Pet.Health - 20, Mood := "angry" })
            user "hit" ts).gameState.Pet
          (user ++ " hit Jankypet!")),
        "You hit Jankypet! ðŸ˜¢") := by
  have hw : wrapInt (w.gameState.Pet.Health - 20) = w.gameState.Pet.Health - 20 :=
    wrapInt_eq_self (by unfold minInt; omega) (by omega)
  have h1 : ¬ w.gameState.Pet.Health ≤ 0 := by omega
  have h2 : ¬ w.gameState.Pet.Health - 20 < 0 := by omega
  have h3 : ¬ w.gameState.Pet.Health - 20 ≤ 0 := by omega
  unfold hitLocked
  rw [if_neg h1]
  simp only [setPet_pet, hw, if_neg h2, if_neg h3]
  rfl

/-- C7: in every state with `Health == h > 0` (a value of Go's `int`, with a
well-formed registry), `HitPet(u)` returns and sets `Health` to
`max(h - 20, 0)`.  If `h ≤ 20` then afterwards `Health == 0`, `Mood == "dead"`,
and exactly one action has been appended, of type `killed` (not `hit`); if
`h > 20` then afterwards `Health == h - 20`, `Mood == "angry"`, and exactly one
action has been appended, of type `hit`.  In both cases nothing else of the
pet has changed and exactly one `GameUpdate` has been broadcast, carrying the
new pet and the message `u ++ " hit Jankypet!"`. -/
theorem hit_live_wounds_or_kills (w : World) (user : String) (ts : Nat)
    (hreg : RegistryOK w) (hpos : 0 < w.gameState.Pet.Health)
    (hty : w.gameState.Pet.Health ≤ maxInt) :
    ∃ w1 ret, HitPet w user ts = some (w1, ret) ∧
      w1.gameState.Pet.Health = max (w.gameState.Pet.Health - 20) 0 ∧
      (w.gameState.Pet.Health ≤ 20 →
        w1.gameState.Pet.Health = 0 ∧ w1.gameState.Pet.Mood = "dead" ∧
        w1.recorded = w.recorded ++ [{ User := user, Typ := "killed", Timestamp := ts }] ∧
        ret = "You killed Jankypet! ðŸ’€") ∧
      (20 < w.gameState.Pet.Health →
        w1.gameState.Pet.Health = w.gameState.Pet.Health - 20 ∧
        w1.gameState.Pet.Mood = "angry" ∧
        w1.recorded = w.recorded ++ [{ User := user, Typ := "hit", Timestamp := ts }] ∧
        ret = "You hit Jankypet! ðŸ˜¢") ∧
      (∃ a, w1.recorded = w.recorded ++ [a] ∧
        w1.gameState.Pet.Actions =
          (w.gameState.Pet.Actions ++ [a]).drop (w.gameState.Pet.Actions.length + 1 - 5)) ∧
      w1.gameState.Pet =
        { w.gameState.Pet with
          Health := w1.gameState.Pet.Health
          Mood := w1.gameState.Pet.Mood
          Actions := w1.gameState.Pet.Actions } ∧
      w1.sent = w.sent ++ [{ Pet := w1.gameState.Pet, Message := user ++ " hit Jankypet!" }] := by
  by_cases hle : w.gameState.Pet.Health ≤ 20
  · have hl := hitLocked_fatal user ts hpos hle
    obtain ⟨w1, h1, hg, hr, hs⟩ := HitPet_spec user ts hreg (by rw [hl])
    rw [hl] at h1 hg hr
    simp only at h1 hg hr
    have hH : w1.gameState.Pet.Health = 0 := by rw [hg]; rfl
    refine ⟨w1, _, h1, ?_, ?_, ?_, ?_, ?_, ?_⟩
    · rw [hH]
      omega
    · intro _
      exact ⟨hH, by rw [hg]; rfl, by rw [hr]; rfl, rfl⟩
    · intro h
      omega
    · exact ⟨_, by rw [hr]; rfl, by rw [hg, addAction_actions]; rfl⟩
    · rw [hg]; rfl
    · rw [hs, hg]
  · have hgt : 20 < w.gameState.Pet.Health := by omega
    have hl := hitLocked_survives user ts hgt hty
    obtain ⟨w1, h1, hg, hr, hs⟩ := HitPet_spec user ts hreg (by rw [hl])
    rw [hl] at h1 hg hr
    simp only at h1 hg hr
    have hH : w1.gameState.Pet.Health = w.gameState.Pet.Health - 20 := by rw [hg]; rfl
    refine ⟨w1, _, h1, ?_, ?_, ?_, ?_, ?_, ?_⟩
    · rw [hH]
      omega
    · intro h
      omega
    · intro _
      exact ⟨hH, by rw [hg]; rfl, by rw [hr]; rfl, rfl⟩
    · exact ⟨_, by rw [hr]; rfl, by rw [hg, addAction_actions]; rfl⟩
    · rw [hg]; rfl
    · rw [hs, hg]

theorem hit_live_wounds_or_kills_witness :
    RegistryOK (sampleWorld 15 "dying" "hit") ∧
      0 < (sampleWorld 15 "dying" "hit").gameState.Pet.Health ∧
      (sampleWorld 15 "dying" "hit").gameState.Pet.Health ≤ maxInt ∧
      ∃ w1 ret, HitPet (sampleWorld 15 "dying" "hit") "carl" 8 = some (w1, ret) ∧
        w1.gameState.Pet.Health =
          max ((sampleWorld 15 "dying" "hit").gameState.Pet.Health - 20) 0 ∧
        ((sampleWorld 15 "dying" "hit").gameState.Pet.Health ≤ 20 →
          w1.gameState.Pet.Health = 0 ∧ w1.gameState.Pet.Mood = "dead" ∧
          w1.recorded = (sampleWorld 15 "dying" "hit").recorded ++
            [{ User := "carl", Typ := "killed", Timestamp := 8 }] ∧
          ret = "You killed Jankypet! ðŸ’€") ∧
        (20 < (sampleWorld 15 "dying" "hit").gameState.Pet.Health →
          w1.gameState.Pet.Health = (sampleWorld 15 "dying" "hit").gameState.Pet.Health - 20 ∧
          w1.gameState.Pet.Mood = "angry" ∧
          w1.recorded = (sampleWorld 15 "dying" "hit").recorded ++
            [{ User := "carl", Typ := "hit", Timestamp := 8 }] ∧
          ret = "You hit Jankypet! ðŸ˜¢") ∧
        (∃ a, w1.recorded = (sampleWorld 15 "dying" "hit").recorded ++ [a] ∧
          w1.gameState.Pet.Actions =
            ((sampleWorld 15 "dying" "hit").gameState.Pet.Actions ++ [a]).drop
              ((sampleWorld 15 "dying" "hit").gameState.Pet.Actions.length + 1 - 5)) ∧
        w1.gameState.Pet =
          { (sampleWorld 15 "dying" "hit").gameState.Pet with
            Health := w1.gameState.Pet.Health
            Mood := w1.gameState.Pet.Mood
            Actions := w1.gameState.Pet.Actions } ∧
        w1.sent = (sampleWorld 15 "dying" "hit").sent ++
          [{ Pet := w1.gameState.Pet, Message := "carl" ++ " hit Jankypet!" }] :=
  ⟨by decide, by decide, by decide,
    hit_live_wounds_or_kills (sampleWorld 15 "dying" "hit") "carl" 8 (by decide) (by decide)
      (by decide)⟩

/-! ## Calls on a dead pet -/

/-- C8: in every state with `Health == 0`, `PetPet(u)` and `HitPet(u)` change
nothing: the memory after the call is the memory before it (the pet with its
action log, the registry, every channel queue, and the log of broadcasts, so
no `GameUpdate` is broadcast), and the strings returned are exactly
`"Can't pet a dead pet!"` and `"Stop! It's already dead!"`. -/
theorem dead_pet_calls_are_noops (w : World) (user : String) (now ts : Nat)
    (h0 : w.gameState.Pet.Health = 0) :
    PetPet w user now ts = some (w, "Can't pet a dead pet!") ∧
      HitPet w user ts = some (w, "Stop! It's already dead!") := by
  have hle : w.gameState.Pet.Health ≤ 0 := le_of_eq h0
  constructor
  · simp only [PetPet, petLocked, if_pos hle]
  · simp only [HitPet, hitLocked, if_pos hle]

theorem dead_pet_calls_are_noops_witness :
    (sampleWorld 0 "dead" "died").gameState.Pet.Health = 0 ∧
      PetPet (sampleWorld 0 "dead" "died") "carl" 7 8 =
        some (sampleWorld 0 "dead" "died", "Can't pet a dead pet!") ∧
      HitPet (sampleWorld 0 "dead" "died") "carl" 8 =
        some (sampleWorld 0 "dead" "died", "Stop! It's already dead!") :=
  ⟨rfl, dead_pet_calls_are_noops (sampleWorld 0 "dead" "died") "carl" 7 8 rfl⟩

/-! ## The decay tick -/

/-- With a well-formed registry one iteration of the decay loop completes: its
critical section followed by one `broadcast` of the pet with an empty message. -/
theorem healthDecayTick_spec {w : World} (ts : Nat) (hreg : RegistryOK w) :
    ∃ w1, healthDecayTick w ts = some w1 ∧
      w1.gameState = (decayLocked w ts).gameState ∧
      w1.recorded = (decayLocked w ts).recorded ∧
      w1.sent = w.sent ++ [{ Pet := (decayLocked w ts).gameState.Pet, Message := "" }] := by
  have hl := lockedPart_registryOK (.tick ts) hreg
  obtain ⟨w1, h1, hg, hr, hs, _⟩ :=
    broadcast_spec { Pet := (decayLocked w ts).gameState.Pet, Message := "" } hl
  simp only [lockedPart] at h1 hg hr hs
  refine ⟨w1, h1, hg, hr, ?_⟩
  rw [hs]
  have := (lockedPart_frame w (.tick ts)).2.2.2
  simp only [lockedPart] at this
  rw [this]

theorem decayLocked_dead {w : World} (ts : Nat) (h : w.gameState.Pet.Health ≤ 0) :
    decayLocked w ts = w := by
  unfold decayLocked
  rw [if_neg (not_lt.mpr h)]

theorem decayLocked_dies {w : World} (ts : Nat) (h : w.gameState.Pet.Health = 1) :
    decayLocked w ts =
      addAction (setPet w { w.gameState.Pet with Health := 0, Mood := "dead" })
        "system" "died" ts := by
  have hw : wrapInt (w.gameState.Pet.Health - 1) = 0 := by
    rw [h]
    rfl
  unfold decayLocked
  rw [if_pos (by omega)]
  simp only [setPet_pet, hw, le_refl, if_true]
  rfl

theorem decayLocked_decays {w : World} (ts : Nat) (h : 1 < w.gameState.Pet.Health)
    (hty : w.gameState.Pet.Health ≤ maxInt) :
    decayLocked w ts =
      setPet w { w.gameState.Pet with
        Health := w.gameState.Pet.Health - 1
        Mood := (if w.gameState.Pet.Health - 1 < 20 then "dying"
          else if w.gameState.Pet.Health - 1 < 40 then "sad" else w.gameState.Pet.Mood) } := by
  have hw : wrapInt (w.gameState.Pet.Health - 1) = w.gameState.Pet.Health - 1 :=
    wrapInt_eq_self (by unfold minInt; omega) (by omega)
  have h1 : ¬ w.gameState.Pet.Health - 1 ≤ 0 := by omega
  unfold decayLocked
  rw [if_pos (by omega)]
  simp only [setPet_pet, hw, if_neg h1]
  by_cases h20 : w.gameState.Pet.Health - 1 < 20
  · simp only [if_pos h20]
    rfl
  · by_cases h40 : w.gameState.Pet.Health - 1 < 40
    · simp only [if_neg h20, if_pos h40]
      rfl
    · simp only [if_neg h20, if_neg h40]

/-- C9: one decay tick on a state with `Health == h` (a value of Go's `int`,
with a well-formed registry) completes, and: if `h == 0` the pet is unchanged;
if `h == 1` then `Health` becomes 0, `Mood` becomes `"dead"` and one action
`{User: "system", Type: "died"}` is appended; if `h > 1` then `Health` becomes
`h - 1`, no action is appended, and `Mood` becomes `"dying"` when `h - 1 < 20`,
`"sad"` when `20 ≤ h - 1 < 40`, and stays as it was when `h - 1 ≥ 40`; nothing
else of the pet changes.  In every case exactly one `GameUpdate` is broadcast,
with the pet after the tick and the empty message. -/
theorem decay_tick_effect (w : World) (ts : Nat) (hreg : RegistryOK w)
    (hty : w.gameState.Pet.Health ≤ maxInt) :
    ∃ w1, healthDecayTick w ts = some w1 ∧
      w1.sent = w.sent ++ [{ Pet := w1.gameState.Pet, Message := "" }] ∧
      (w.gameState.Pet.Health = 0 →
        w1.gameState.Pet = w.gameState.Pet ∧ w1.recorded = w.recorded) ∧
      (w.gameState.Pet.Health = 1 →
        w1.gameState.Pet.Health = 0 ∧ w1.gameState.Pet.Mood = "dead" ∧
        w1.recorded = w.recorded ++ [{ User := "system", Typ := "died", Timestamp := ts }] ∧
        w1.gameState.Pet.Actions =
          (w.gameState.Pet.Actions ++
            [({ User := "system", Typ := "died", Timestamp := ts } : Action)]).drop
            (w.gameState.Pet.Actions.length + 1 - 5) ∧
        w1.gameState.Pet =
          { w.gameState.Pet with
            Health := 0
            Mood := "dead"
            Actions := w1.gameState.Pet.Actions }) ∧
      (1 < w.gameState.Pet.Health →
        w1.gameState.Pet.Health = w.gameState.Pet.Health - 1 ∧
        w1.recorded = w.recorded ∧
        w1.gameState.Pet.Actions = w.gameState.Pet.Actions ∧
        (w.gameState.Pet.Health - 1 < 20 → w1.gameState.Pet.Mood = "dying") ∧
        (20 ≤ w.gameState.Pet.Health - 1 → w.gameState.Pet.Health - 1 < 40 →
          w1.gameState.Pet.Mood = "sad") ∧
        (40 ≤ w.gameState.Pet.Health - 1 → w1.gameState.Pet.Mood = w.gameState.Pet.Mood) ∧
        w1.gameState.Pet =
          { w.gameState.Pet with
            Health := w.gameState.Pet.Health - 1
            Mood := w1.gameState.Pet.Mood }) := by
  obtain ⟨w1, h1, hg, hr, hs⟩ := healthDecayTick_spec ts hreg
  refine ⟨w1, h1, by rw [hs, hg], ?_, ?_, ?_⟩
  · intro h0
    rw [decayLocked_dead ts (le_of_eq h0)] at hg hr
    exact ⟨by rw [hg], hr⟩
  · intro h
    rw [decayLocked_dies ts h] at hg hr
    refine ⟨by rw [hg]; rfl, by rw [hg]; rfl, by rw [hr]; rfl, ?_, by rw [hg]; rfl⟩
    rw [hg, addAction_actions]
    rfl
  · intro h
    rw [decayLocked_decays ts h hty] at hg hr
    refine ⟨by rw [hg]; rfl, by rw [hr]; rfl, by rw [hg]; rfl, ?_, ?_, ?_, by rw [hg]; rfl⟩
    · intro h20
      rw [hg]
      simp only [setPet_pet, if_pos h20]
    · intro h20 h40
      rw [hg]
      simp only [setPet_pet, if_neg (not_lt.mpr h20), if_pos h40]
    · intro h40
      rw [hg]
      have h20 : ¬ w.gameState.Pet.Health - 1 < 20 := by omega
      simp only [setPet_pet, if_neg h20, if_neg (not_lt.mpr h40)]

theorem decay_tick_effect_witness :
    RegistryOK (sampleWorld 1 "dying" "hit") ∧
      (sampleWorld 1 "dying" "hit").gameState.Pet.Health ≤ maxInt ∧
      ∃ w1, healthDecayTick (sampleWorld 1 "dying" "hit") 9 = some w1 ∧
        w1.sent = (sampleWorld 1 "dying" "hit").sent ++
          [{ Pet := w1.gameState.Pet, Message := "" }] ∧
        ((sampleWorld 1 "dying" "hit").gameState.Pet.Health = 0 →
          w1.gameState.Pet = (sampleWorld 1 "dying" "hit").gameState.Pet ∧
          w1.recorded = (sampleWorld 1 "dying" "hit").recorded) ∧
        ((sampleWorld 1 "dying" "hit").gameState.Pet.Health = 1 →
          w1.gameState.Pet.Health = 0 ∧ w1.gameState.Pet.Mood = "dead" ∧
          w1.recorded = (sampleWorld 1 "dying" "hit").recorded ++
            [{ User := "system", Typ := "died", Timestamp := 9 }] ∧
          w1.gameState.Pet.Actions =
            ((sampleWorld 1 "dying" "hit").gameState.Pet.Actions ++
              [({ User := "system", Typ := "died", Timestamp := 9 } : Action)]).drop
              ((sampleWorld 1 "dying" "hit").gameState.Pet.Actions.length + 1 - 5) ∧
          w1.gameState.Pet =
            { (sampleWorld 1 "dying" "hit").gameState.Pet with
              Health := 0
              Mood := "dead"
              Actions := w1.gameState.Pet.Actions }) ∧
        (1 < (sampleWorld 1 "dying" "hit").gameState.Pet.Health →
          w1.gameState.Pet.Health = (sampleWorld 1 "dying" "hit").gameState.Pet.Health - 1 ∧
          w1.recorded = (sampleWorld 1 "dying" "hit").recorded ∧
          w1.gameState.Pet.Actions = (sampleWorld 1 "dying" "hit").gameState.Pet.Actions ∧
          ((sampleWorld 1 "dying" "hit").gameState.Pet.Health - 1 < 20 →
            w1.gameState.Pet.Mood = "dying") ∧
          (20 ≤ (sampleWorld 1 "dying" "hit").gameState.Pet.Health - 1 →
            (sampleWorld 1 "dying" "hit").gameState.Pet.Health - 1 < 40 →
            w1.gameState.Pet.Mood = "sad") ∧
          (40 ≤ (sampleWorld 1 "dying" "hit").gameState.Pet.Health - 1 →
            w1.gameState.Pet.Mood = (sampleWorld 1 "dying" "hit").gameState.Pet.Mood) ∧
          w1.gameState.Pet =
            { (sampleWorld 1 "dying" "hit").gameState.Pet with
              Health := (sampleWorld 1 "dying" "hit").gameState.Pet.Health - 1
              Mood := w1.gameState.Pet.Mood }) :=
  ⟨by decide, by decide,
    decay_tick_effect (sampleWorld 1 "dying" "hit") 9 (by decide) (by decide)⟩

/-! ## Channel queues stay within their capacity -/

theorem chansBounded_iff {w : World} :
    ChansBounded w ↔
      ∀ (r : Nat) (c : Chan), w.chans[r]? = some c → c.cap = 10 ∧ c.buf.length ≤ 10 := by
  unfold ChansBounded
  constructor
  · intro h r c hc
    exact h c (List.mem_iff_getElem?.mpr ⟨r, hc⟩)
  · intro h c hc
    obtain ⟨r, hr⟩ := List.mem_iff_getElem?.mp hc
    exact h r c hr

theorem trySend_bounded {c c1 : Chan} {u : GameUpdate} (h : trySend c u = some c1)
    (hc : c.cap = 10 ∧ c.buf.length ≤ 10) : c1.cap = 10 ∧ c1.buf.length ≤ 10 := by
  unfold trySend at h
  split at h
  · exact absurd h (by simp)
  · split at h
    · cases h
      rename_i hlt
      refine ⟨hc.1, ?_⟩
      simp only [List.length_append, List.length_singleton]
      omega
    · cases h
      exact hc

theorem broadcast_chansBounded {w w1 : World} {u : GameUpdate} (hreg : RegistryOK w)
    (hb : ChansBounded w) (h : broadcast w u = some w1) : ChansBounded w1 := by
  obtain ⟨w2, h2, _, _, _, _, hget⟩ := broadcast_spec u hreg
  rw [h] at h2
  cases h2
  rw [chansBounded_iff] at hb ⊢
  intro r c1 hc1
  rw [hget r] at hc1
  split_ifs at hc1 with hr
  · cases hc : w.chans[r]? with
    | none => rw [hc] at hc1; exact absurd hc1 (by simp)
    | some c =>
      rw [hc, Option.some_bind] at hc1
      exact trySend_bounded hc1 (hb r c hc)
  · exact hb r c1 hc1

theorem Subscribe_chansBounded {w : World} (userID : String) (hb : ChansBounded w) :
    ChansBounded (Subscribe w userID).1 := by
  unfold ChansBounded at *
  intro c hc
  simp only [Subscribe, List.mem_append, List.mem_singleton] at hc
  rcases hc with hc | hc
  · exact hb c hc
  · subst hc
    exact ⟨rfl, by simp⟩

theorem Unsubscribe_chansBounded {w w1 : World} {userID : String} (hb : ChansBounded w)
    (h : Unsubscribe w userID = some w1) : ChansBounded w1 := by
  unfold Unsubscribe at h
  split at h
  · split at h
    · exact absurd h (by simp)
    · rename_i ch _ _ c hc
      split at h
      · exact absurd h (by simp)
      · cases h
        unfold ChansBounded at *
        intro c1 hc1
        rcases List.mem_or_eq_of_mem_set hc1 with hm | hm
        · exact hb c1 hm
        · subst hm
          exact hb c (List.mem_iff_getElem?.mpr ⟨ch, hc⟩)
  · cases h
    exact hb

theorem waitForUpdate_chansBounded {w : World} (updates : Nat) (hb : ChansBounded w) :
    ChansBounded (waitForUpdate w updates).1 := by
  unfold waitForUpdate
  split
  · exact hb
  · rename_i c hc
    split
    · exact hb
    · rename_i u rest hbuf
      unfold ChansBounded at *
      intro c1 hc1
      rcases List.mem_or_eq_of_mem_set hc1 with hm | hm
      · exact hb c1 hm
      · subst hm
        have := hb c (List.mem_iff_getElem?.mpr ⟨updates, hc⟩)
        rw [hbuf] at this
        simp only [List.length_cons] at this
        exact ⟨this.1, by simp only; omega⟩

/-- What a call is made of: its critical section, then at most one
`broadcast`; or one of the registry operations; or a receive. -/
theorem step_shape {w w1 : World} {op : Op} (h : step w op = some w1) :
    (∃ u, broadcast (lockedPart w op) u = some w1) ∨ w1 = lockedPart w op ∨
      (∃ userID, w1 = (Subscribe w userID).1) ∨
      (∃ userID, Unsubscribe w userID = some w1) ∨
      (∃ updates, w1 = (waitForUpdate w updates).1) := by
  cases op with
  | feed user now ts =>
    left
    simp only [step, FeedPet, Option.map_map, Option.map_eq_some'] at h
    obtain ⟨a, ha, hw⟩ := h
    exact ⟨_, by rw [← hw]; exact ha⟩
  | pet user now ts =>
    simp only [step, PetPet] at h
    split at h
    · right; left
      simp only [Option.map_some', Option.some.injEq] at h
      exact h.symm
    · left
      rename_i u hu
      simp only [Option.map_map, Option.map_eq_some'] at h
      obtain ⟨a, ha, hw⟩ := h
      exact ⟨u, by rw [← hw]; exact ha⟩
  | hit user ts =>
    simp only [step, HitPet] at h
    split at h
    · right; left
      simp only [Option.map_some', Option.some.injEq] at h
      exact h.symm
    · left
      rename_i u hu
      simp only [Option.map_map, Option.map_eq_some'] at h
      obtain ⟨a, ha, hw⟩ := h
      exact ⟨u, by rw [← hw]; exact ha⟩
  | tick ts =>
    left
    exact ⟨_, h⟩
  | subscribe userID =>
    right; right; left
    simp only [step, Option.some.injEq] at h
    exact ⟨userID, h.symm⟩
  | unsubscribe userID =>
    right; right; right; left
    exact ⟨userID, h⟩
  | getState =>
    right; left
    simp only [step, Option.some.injEq] at h
    exact h.symm
  | receive updates =>
    right; right; right; right
    simp only [step, Option.some.injEq] at h
    exact ⟨updates, h.symm⟩

theorem lockedPart_chansBounded {w : World} (op : Op) (hb : ChansBounded w) :
    ChansBounded (lockedPart w op) := by
  unfold ChansBounded
  rw [(lockedPart_frame w op).1]
  exact hb

theorem step_chansBounded (w : World) (op : Op) (w1 : World) (hreg : RegistryOK w)
    (hb : ChansBounded w) (h : step w op = some w1) : ChansBounded w1 := by
  rcases step_shape h with ⟨u, hu⟩ | hl | ⟨userID, hs⟩ | ⟨userID, hu⟩ | ⟨updates, hr⟩
  · exact broadcast_chansBounded (lockedPart_registryOK op hreg)
      (lockedPart_chansBounded op hb) hu
  · rw [hl]
    exact lockedPart_chansBounded op hb
  · rw [hs]
    exact Subscribe_chansBounded userID hb
  · exact Unsubscribe_chansBounded hb hu
  · rw [hr]
    exact waitForUpdate_chansBounded updates hb

/-- Induction over runs, for any property kept by every call. -/
theorem run_invariant_step (P : World → Prop)
    (hstep : ∀ w op w1, RegistryOK w → P w → step w op = some w1 → P w1) :
    ∀ (ops : List Op) (w : World), RegistryOK w → P w →
      ∃ w1, run w ops = some w1 ∧ RegistryOK w1 ∧ P w1 := by
  intro ops
  induction ops with
  | nil =>
    intro w hreg hP
    exact ⟨w, rfl, hreg, hP⟩
  | cons op ops ih =>
    intro w hreg hP
    obtain ⟨w1, h1, hreg1, _, _⟩ := step_spec op hreg
    obtain ⟨w2, h2, hreg2, hP2⟩ := ih w1 hreg1 (hstep w op w1 hreg hP h1)
    refine ⟨w2, ?_, hreg2, hP2⟩
    simp only [run, h1]
    exact h2

/-! ## The critical sections read nothing but the pet -/

theorem feedLocked_pet_only {w w2 : World} (h : w2.gameState.Pet = w.gameState.Pet)
    (user : String) (now ts : Nat) :
    (feedLocked w2 user now ts).1.gameState.Pet = (feedLocked w user now ts).1.gameState.Pet ∧
      (feedLocked w2 user now ts).2.2 = (feedLocked w user now ts).2.2 := by
  simp only [feedLocked, h, setPet_pet]
  split_ifs <;> simp [addAction, setPet, h]

theorem petLocked_pet_only {w w2 : World} (h : w2.gameState.Pet = w.gameState.Pet)
    (user : String) (now ts : Nat) :
    (petLocked w2 user now ts).1.gameState.Pet = (petLocked w user now ts).1.gameState.Pet ∧
      (petLocked w2 user now ts).2.2 = (petLocked w user now ts).2.2 := by
  simp only [petLocked, h, setPet_pet]
  split_ifs <;> simp_all [addAction, setPet]

theorem hitLocked_pet_only {w w2 : World} (h : w2.gameState.Pet = w.gameState.Pet)
    (user : String) (ts : Nat) :
    (hitLocked w2 user ts).1.gameState.Pet = (hitLocked w user ts).1.gameState.Pet ∧
      (hitLocked w2 user ts).2.2 = (hitLocked w user ts).2.2 := by
  simp only [hitLocked, h, setPet_pet]
  split_ifs <;> simp only [setPet_pet] at * <;> simp_all [addAction, setPet]

theorem FeedPet_result {w : World} (user : String) (now ts : Nat) (hreg : RegistryOK w) :
    ∃ w1, FeedPet w user now ts = some (w1, (feedLocked w user now ts).2.2) ∧
      w1.gameState.Pet = (feedLocked w user now ts).1.gameState.Pet := by
  obtain ⟨w1, h1, hg, _, _⟩ := FeedPet_spec user now ts hreg
  exact ⟨w1, h1, by rw [hg]⟩

theorem PetPet_result {w : World} (user : String) (now ts : Nat) (hreg : RegistryOK w) :
    ∃ w1, PetPet w user now ts = some (w1, (petLocked w user now ts).2.2) ∧
      w1.gameState.Pet = (petLocked w user now ts).1.gameState.Pet := by
  cases hu : (petLocked w user now ts).2.1 with
  | none =>
    refine ⟨(petLocked w user now ts).1, ?_, rfl⟩
    simp only [PetPet, hu]
  | some u =>
    obtain ⟨w1, h1, hg, _, _⟩ := PetPet_spec user now ts hreg hu
    exact ⟨w1, h1, by rw [hg]⟩

theorem HitPet_result {w : World} (user : String) (ts : Nat) (hreg : RegistryOK w) :
    ∃ w1, HitPet w user ts = some (w1, (hitLocked w user ts).2.2) ∧
      w1.gameState.Pet = (hitLocked w user ts).1.gameState.Pet := by
  cases hu : (hitLocked w user ts).2.1 with
  | none =>
    refine ⟨(hitLocked w user ts).1, ?_, rfl⟩
    simp only [HitPet, hu]
  | some u =>
    obtain ⟨w1, h1, hg, _, _⟩ := HitPet_spec user ts hreg hu
    exact ⟨w1, h1, by rw [hg]⟩

/-! ## `broadcast` -/

/-- C10: with every subscriber channel a queue of capacity 10 (and a
well-formed registry), `broadcast(update)` returns and maps the queue `q` of
every registered subscriber to `q ++ [update]` when `len(q) < 10` and leaves
it unchanged when `len(q) == 10`; channels outside the registry are untouched;
afterwards still no queue exceeds 10 entries; the registry (the set of
subscribers) and the pet are unchanged.  The resulting queue of one subscriber
is the same in any other memory with the same registry and the same queue for
this subscriber, whatever the queues of the others hold; and the string
returned and the pet left by `FeedPet`, `PetPet` and `HitPet` are the same in
any other memory with the same pet, whatever the queues hold.  Both
assumptions hold after every run from `InitGame`, so no queue ever exceeds 10
entries. -/
theorem broadcast_fans_out (w : World) (update : GameUpdate) (hreg : RegistryOK w)
    (hb : ChansBounded w) :
    ∃ w1, broadcast w update = some w1 ∧
      (∀ (userID : String) (ch : Nat), (userID, ch) ∈ w.gameState.Subscribers →
        ∃ c c1, w.chans[ch]? = some c ∧ w1.chans[ch]? = some c1 ∧
          (c.buf.length < 10 → c1.buf = c.buf ++ [update]) ∧
          (c.buf.length = 10 → c1.buf = c.buf) ∧
          c1.cap = 10 ∧ c1.closed = false) ∧
      (∀ r : Nat, r ∉ w.gameState.Subscribers.map Prod.snd → w1.chans[r]? = w.chans[r]?) ∧
      ChansBounded w1 ∧ RegistryOK w1 ∧
      w1.gameState = w.gameState ∧
      (∀ w2 : World, RegistryOK w2 → w2.gameState.Subscribers = w.gameState.Subscribers →
        ∀ (userID : String) (ch : Nat), (userID, ch) ∈ w.gameState.Subscribers →
          w2.chans[ch]? = w.chans[ch]? →
          ∃ w3, broadcast w2 update = some w3 ∧ w3.chans[ch]? = w1.chans[ch]?) ∧
      (∀ w2 : World, RegistryOK w2 → w2.gameState.Pet = w.gameState.Pet →
        ∀ (user : String) (now ts : Nat),
          (∃ a b ret, FeedPet w user now ts = some (a, ret) ∧
            FeedPet w2 user now ts = some (b, ret) ∧ a.gameState.Pet = b.gameState.Pet) ∧
          (∃ a b ret, PetPet w user now ts = some (a, ret) ∧
            PetPet w2 user now ts = some (b, ret) ∧ a.gameState.Pet = b.gameState.Pet) ∧
          (∃ a b ret, HitPet w user ts = some (a, ret) ∧
            HitPet w2 user ts = some (b, ret) ∧ a.gameState.Pet = b.gameState.Pet)) ∧
      (∀ (t1 t2 : Nat) (ops : List Op),
        ∃ w0, run (InitGame t1 t2) ops = some w0 ∧ RegistryOK w0 ∧ ChansBounded w0) := by
  obtain ⟨w1, h1, hg, _, _, _, hget⟩ := broadcast_spec update hreg
  refine ⟨w1, h1, ?_, ?_, broadcast_chansBounded hreg hb h1, broadcast_registryOK hreg h1,
    hg, ?_, ?_, ?_⟩
  · intro userID ch hmem
    have hin : ch ∈ w.gameState.Subscribers.map Prod.snd :=
      List.mem_map.mpr ⟨(userID, ch), hmem, rfl⟩
    obtain ⟨c, hc, hcl⟩ := chanOpen_iff.mp (hreg.1 _ hmem)
    simp only at hc
    have hcb := (chansBounded_iff.mp hb) ch c hc
    have hres := hget ch
    rw [if_pos hin, hc, Option.some_bind, trySend_open update hcl] at hres
    refine ⟨c, _, hc, hres, ?_, ?_, ?_, ?_⟩
    · intro hlt
      rw [if_pos (by omega)]
    · intro heq
      rw [if_neg (by omega)]
    · split_ifs
      · exact hcb.1
      · exact hcb.1
    · split_ifs
      · exact hcl
      · exact hcl
  · intro r hr
    rw [hget r, if_neg hr]
  · intro w2 hreg2 hsubs userID ch hmem hsame
    obtain ⟨w3, h3, _, _, _, _, hget3⟩ := broadcast_spec update hreg2
    refine ⟨w3, h3, ?_⟩
    rw [hget3 ch, hget ch, hsubs, hsame]
  · intro w2 hreg2 hpet user now ts
    refine ⟨?_, ?_, ?_⟩
    · obtain ⟨a, ha, hpa⟩ := FeedPet_result user now ts hreg
      obtain ⟨b, hb2, hpb⟩ := FeedPet_result user now ts hreg2
      have hd := feedLocked_pet_only hpet user now ts
      exact ⟨a, b, _, ha, by rw [hb2, hd.2], by rw [hpa, hpb, hd.1]⟩
    · obtain ⟨a, ha, hpa⟩ := PetPet_result user now ts hreg
      obtain ⟨b, hb2, hpb⟩ := PetPet_result user now ts hreg2
      have hd := petLocked_pet_only hpet user now ts
      exact ⟨a, b, _, ha, by rw [hb2, hd.2], by rw [hpa, hpb, hd.1]⟩
    · obtain ⟨a, ha, hpa⟩ := HitPet_result user ts hreg
      obtain ⟨b, hb2, hpb⟩ := HitPet_result user ts hreg2
      have hd := hitLocked_pet_only hpet user ts
      exact ⟨a, b, _, ha, by rw [hb2, hd.2], by rw [hpa, hpb, hd.1]⟩
  · intro t1 t2 ops
    exact run_invariant_step ChansBounded step_chansBounded ops (InitGame t1 t2)
      (InitGame_registryOK t1 t2) (by
        unfold ChansBounded InitGame
        simp)

theorem broadcast_fans_out_witness :
    RegistryOK twoSubscribers ∧ ChansBounded twoSubscribers ∧
      ∃ w1, broadcast twoSubscribers { Pet := twoSubscribers.gameState.Pet, Message := "hi" } =
          some w1 ∧
        (∀ (userID : String) (ch : Nat), (userID, ch) ∈ twoSubscribers.gameState.Subscribers →
          ∃ c c1, twoSubscribers.chans[ch]? = some c ∧ w1.chans[ch]? = some c1 ∧
            (c.buf.length < 10 →
              c1.buf = c.buf ++ [{ Pet := twoSubscribers.gameState.Pet, Message := "hi" }]) ∧
            (c.buf.length = 10 → c1.buf = c.buf) ∧
            c1.cap = 10 ∧ c1.closed = false) ∧
        (∀ r : Nat, r ∉ twoSubscribers.gameState.Subscribers.map Prod.snd →
          w1.chans[r]? = twoSubscribers.chans[r]?) ∧
        ChansBounded w1 ∧ RegistryOK w1 ∧
        w1.gameState = twoSubscribers.gameState ∧
        (∀ w2 : World, RegistryOK w2 →
          w2.gameState.Subscribers = twoSubscribers.gameState.Subscribers →
          ∀ (userID : String) (ch : Nat), (userID, ch) ∈ twoSubscribers.gameState.Subscribers →
            w2.chans[ch]? = twoSubscribers.chans[ch]? →
            ∃ w3, broadcast w2 { Pet := twoSubscribers.gameState.Pet, Message := "hi" } =
                some w3 ∧
              w3.chans[ch]? = w1.chans[ch]?) ∧
        (∀ w2 : World, RegistryOK w2 → w2.gameState.Pet = twoSubscribers.gameState.Pet →
          ∀ (user : String) (now ts : Nat),
            (∃ a b ret, FeedPet twoSubscribers user now ts = some (a, ret) ∧
              FeedPet w2 user now ts = some (b, ret) ∧ a.gameState.Pet = b.gameState.Pet) ∧
            (∃ a b ret, PetPet twoSubscribers user now ts = some (a, ret) ∧
              PetPet w2 user now ts = some (b, ret) ∧ a.gameState.Pet = b.gameState.Pet) ∧
            (∃ a b ret, HitPet twoSubscribers user ts = some (a, ret) ∧
              HitPet w2 user ts = some (b, ret) ∧ a.gameState.Pet = b.gameState.Pet)) ∧
        (∀ (t1 t2 : Nat) (ops : List Op),
          ∃ w0, run (InitGame t1 t2) ops = some w0 ∧ RegistryOK w0 ∧ ChansBounded w0) :=
  ⟨by decide, by decide,
    broadcast_fans_out twoSubscribers { Pet := twoSubscribers.gameState.Pet, Message := "hi" }
      (by decide) (by decide)⟩

/-! ## Lookups in the maps -/

theorem mapGet_eq_none_iff {α : Type} {m : List (String × α)} {k : String} :
    mapGet m k = none ↔ k ∉ m.map Prod.fst := by
  unfold mapGet
  simp only [Option.map_eq_none', List.find?_eq_none, decide_eq_true_eq, List.mem_map,
    not_exists, not_and]

theorem mapDelete_of_not_mem {α : Type} {m : List (String × α)} {k : String}
    (h : k ∉ m.map Prod.fst) : mapDelete m k = m := by
  unfold mapDelete
  rw [List.filter_eq_self]
  intro e he
  simp only [ne_eq, decide_not, Bool.not_eq_true', decide_eq_false_iff_not]
  intro hk
  exact h (List.mem_map.mpr ⟨e, he, hk⟩)

theorem mapDelete_keys {α : Type} (m : List (String × α)) (k : String) :
    (mapDelete m k).map Prod.fst = (m.map Prod.fst).filter (fun x => decide (x ≠ k)) := by
  unfold mapDelete
  rw [List.filter_map]
  rfl

theorem mapDelete_not_mem {α : Type} (m : List (String × α)) (k : String) :
    k ∉ (mapDelete m k).map Prod.fst := by
  rw [mapDelete_keys]
  simp

theorem mapGet_mapDelete_self {α : Type} (m : List (String × α)) (k : String) :
    mapGet (mapDelete m k) k = none :=
  mapGet_eq_none_iff.mpr (mapDelete_not_mem m k)

theorem mapGet_mapDelete_ne {α : Type} (m : List (String × α)) {k k1 : String} (h : k1 ≠ k) :
    mapGet (mapDelete m k) k1 = mapGet m k1 := by
  unfold mapGet mapDelete
  induction m with
  | nil => rfl
  | cons e rest ih =>
    by_cases hk : e.1 = k
    · have hk1 : ¬ k = k1 := fun h1 => h h1.symm
      simp only [List.filter_cons, hk, ne_eq, not_true_eq_false, decide_False,
        Bool.false_eq_true, if_false, List.find?_cons, hk1]
      exact ih
    · simp only [List.filter_cons, hk, ne_eq, not_false_eq_true, decide_True, if_true,
        List.find?_cons]
      by_cases hk1 : e.1 = k1
      · simp only [hk1, decide_True]
      · simp only [hk1, decide_False]
        exact ih

theorem mapGet_mapSet_self {α : Type} (m : List (String × α)) (k : String) (v : α) :
    mapGet (mapSet m k v) k = some v := by
  have hnone := mapGet_mapDelete_self m k
  unfold mapGet at hnone ⊢
  unfold mapSet
  rw [Option.map_eq_none'] at hnone
  rw [List.find?_append, hnone]
  simp

theorem mapGet_mapSet_ne {α : Type} (m : List (String × α)) {k k1 : String} (v : α)
    (h : k1 ≠ k) : mapGet (mapSet m k v) k1 = mapGet m k1 := by
  have hd := mapGet_mapDelete_ne m h
  unfold mapGet at hd ⊢
  unfold mapSet
  rw [List.find?_append]
  have hk : ¬ k = k1 := fun h1 => h h1.symm
  simp only [List.find?_cons, hk, decide_False, List.find?_nil, Option.or_none]
  exact hd

/-! ## The two maps of the registry hold the same identities -/

theorem Subscribe_keysAgree {w : World} (userID : String) (h : KeysAgree w) :
    KeysAgree (Subscribe w userID).1 := by
  obtain ⟨hk, hv⟩ := h
  refine ⟨?_, ?_⟩
  · simp only [Subscribe, mapSet, List.map_append, mapDelete_keys, hk, List.map_cons,
      List.map_nil]
  · intro e he
    simp only [Subscribe, mapSet, List.mem_append, List.mem_singleton] at he
    rcases he with he | he
    · exact hv e (mapDelete_mem he).1
    · subst he
      rfl

theorem Unsubscribe_keysAgree {w w1 : World} {userID : String} (h : KeysAgree w)
    (hu : Unsubscribe w userID = some w1) : KeysAgree w1 := by
  obtain ⟨hk, hv⟩ := h
  unfold Unsubscribe at hu
  split at hu
  · split at hu
    · exact absurd hu (by simp)
    · split at hu
      · exact absurd hu (by simp)
      · cases hu
        refine ⟨?_, ?_⟩
        · simp only [mapDelete_keys, hk]
        · intro e he
          exact hv e (mapDelete_mem he).1
  · rename_i hnone
    cases hu
    have hnot : userID ∉ w.gameState.ConnectedUsers.map Prod.fst := by
      rw [← hk]
      exact mapGet_eq_none_iff.mp hnone
    refine ⟨?_, ?_⟩
    · simp only [mapDelete_of_not_mem hnot]
      exact hk
    · intro e he
      exact hv e (mapDelete_mem he).1

theorem step_keysAgree (w : World) (op : Op) (w1 : World) (_hreg : RegistryOK w)
    (h : KeysAgree w) (hs : step w op = some w1) : KeysAgree w1 := by
  obtain ⟨_, hsub, hconn, _⟩ := lockedPart_frame w op
  have hl : KeysAgree (lockedPart w op) := by
    unfold KeysAgree
    rw [hsub, hconn]
    exact h
  rcases step_shape hs with ⟨u, hu⟩ | hl1 | ⟨userID, hs1⟩ | ⟨userID, hu⟩ | ⟨updates, hr⟩
  · have hg := (broadcast_frame hu).1
    unfold KeysAgree
    rw [hg]
    exact hl
  · rw [hl1]
    exact hl
  · rw [hs1]
    exact Subscribe_keysAgree userID h
  · exact Unsubscribe_keysAgree h hu
  · rw [hr]
    unfold KeysAgree
    rw [(waitForUpdate_frame w updates).1]
    exact h

theorem InitGame_keysAgree (t1 t2 : Nat) : KeysAgree (InitGame t1 t2) := by
  unfold KeysAgree InitGame
  simp

theorem keysAgree_lookup {w : World} (h : KeysAgree w) (k : String) :
    (mapGet w.gameState.Subscribers k).isSome = true ↔
      mapGet w.gameState.ConnectedUsers k = some true := by
  obtain ⟨hk, hv⟩ := h
  constructor
  · intro hs
    have hin : k ∈ w.gameState.ConnectedUsers.map Prod.fst := by
      rw [← hk]
      by_contra hnot
      rw [mapGet_eq_none_iff.mpr hnot] at hs
      exact absurd hs (by simp)
    cases hc : mapGet w.gameState.ConnectedUsers k with
    | none => exact absurd hin (mapGet_eq_none_iff.mp hc)
    | some v =>
      have := hv _ (mapGet_mem hc)
      simp only at this
      rw [this]
  · intro hc
    cases hs : mapGet w.gameState.Subscribers k with
    | none =>
      have hnot := mapGet_eq_none_iff.mp hs
      rw [hk] at hnot
      rw [mapGet_eq_none_iff.mpr hnot] at hc
      exact absurd hc (by simp)
    | some v => rfl

/-- C13: from `InitGame`, every finite sequence of calls (`Subscribe` and
`Unsubscribe` interleaved with any other operation) runs to completion, and in
the state it ends in the identities that have a channel in `Subscribers` are
exactly those that have an entry in `ConnectedUsers`, and every value in
`ConnectedUsers` is `true`. -/
theorem registry_maps_agree (t1 t2 : Nat) (ops : List Op) :
    ∃ w, run (InitGame t1 t2) ops = some w ∧
      (∀ k : String, k ∈ w.gameState.Subscribers.map Prod.fst ↔
        k ∈ w.gameState.ConnectedUsers.map Prod.fst) ∧
      (∀ k : String, (mapGet w.gameState.Subscribers k).isSome = true ↔
        mapGet w.gameState.ConnectedUsers k = some true) ∧
      (∀ e ∈ w.gameState.ConnectedUsers, e.2 = true) := by
  obtain ⟨w, hrun, _, hk⟩ :=
    run_invariant_step KeysAgree step_keysAgree ops (InitGame t1 t2)
      (InitGame_registryOK t1 t2) (InitGame_keysAgree t1 t2)
  refine ⟨w, hrun, ?_, keysAgree_lookup hk, hk.2⟩
  intro k
  rw [hk.1]

/-! ## `Unsubscribe` -/

theorem Unsubscribe_absent {w : World} {userID : String}
    (hs : mapGet w.gameState.Subscribers userID = none)
    (hc : userID ∉ w.gameState.ConnectedUsers.map Prod.fst) :
    Unsubscribe w userID = some w := by
  unfold Unsubscribe
  simp only [hs, mapDelete_of_not_mem hc]

theorem Unsubscribe_present {w : World} {userID : String} {ch : Nat} (hreg : RegistryOK w)
    (hs : mapGet w.gameState.Subscribers userID = some ch) :
    ∃ c, w.chans[ch]? = some c ∧ c.closed = false ∧
      Unsubscribe w userID =
        some { w with
          chans := w.chans.set ch { c with closed := true }
          gameState :=
            { w.gameState with
              Subscribers := mapDelete w.gameState.Subscribers userID
              ConnectedUsers := mapDelete w.gameState.ConnectedUsers userID } } := by
  obtain ⟨c, hc, hcl⟩ := chanOpen_iff.mp (hreg.1 _ (mapGet_mem hs))
  simp only at hc
  refine ⟨c, hc, hcl, ?_⟩
  unfold Unsubscribe
  simp only [hs, hc, hcl, Bool.false_eq_true, if_false]

/-- What `Unsubscribe` does in a well-formed registry, and what a second
`Unsubscribe` of the same identity does after it. -/
theorem Unsubscribe_twice (w : World) (userID : String) (hreg : RegistryOK w)
    (hkeys : KeysAgree w) :
    ∃ w1, Unsubscribe w userID = some w1 ∧
      mapGet w1.gameState.Subscribers userID = none ∧
      mapGet w1.gameState.ConnectedUsers userID = none ∧
      (∀ k : String, k ≠ userID →
        mapGet w1.gameState.Subscribers k = mapGet w.gameState.Subscribers k ∧
        mapGet w1.gameState.ConnectedUsers k = mapGet w.gameState.ConnectedUsers k) ∧
      (∀ (k : String) (r : Nat), k ≠ userID → mapGet w.gameState.Subscribers k = some r →
        w1.chans[r]? = w.chans[r]?) ∧
      (∀ ch : Nat, mapGet w.gameState.Subscribers userID = some ch →
        ∃ c, w.chans[ch]? = some c ∧ c.closed = false ∧
          w1.chans[ch]? = some { c with closed := true }) ∧
      (∀ r : Nat, mapGet w.gameState.Subscribers userID ≠ some r →
        w1.chans[r]? = w.chans[r]?) ∧
      w1.gameState.Pet = w.gameState.Pet ∧
      Unsubscribe w1 userID = some w1 ∧
      (mapGet w.gameState.Subscribers userID = none → w1 = w) := by
  cases hs : mapGet w.gameState.Subscribers userID with
  | none =>
    have hc : userID ∉ w.gameState.ConnectedUsers.map Prod.fst := by
      rw [← hkeys.1]
      exact mapGet_eq_none_iff.mp hs
    have hu := Unsubscribe_absent hs hc
    refine ⟨w, hu, hs, mapGet_eq_none_iff.mpr hc, fun _ _ => ⟨rfl, rfl⟩, fun _ _ _ _ => rfl,
      ?_, fun _ _ => rfl, rfl, hu, fun _ => rfl⟩
    intro ch hch
    exact absurd hch (by simp)
  | some ch =>
    obtain ⟨c, hc, hcl, hu⟩ := Unsubscribe_present hreg hs
    have hlt : ch < w.chans.length := chanOpen_lt (hreg.1 _ (mapGet_mem hs))
    refine ⟨_, hu, mapGet_mapDelete_self _ _, mapGet_mapDelete_self _ _, ?_, ?_, ?_, ?_, rfl,
      ?_, ?_⟩
    · intro k hk
      exact ⟨mapGet_mapDelete_ne _ hk, mapGet_mapDelete_ne _ hk⟩
    · intro k r hk hr
      have hne : ch ≠ r := by
        intro heq
        have := List.inj_on_of_nodup_map hreg.2 (mapGet_mem hs) (mapGet_mem hr) heq
        simp only [Prod.mk.injEq] at this
        exact hk this.1.symm
      simp only
      rw [List.getElem?_set_ne hne]
    · intro ch1 hch1
      simp only [Option.some.injEq] at hch1
      subst hch1
      refine ⟨c, hc, hcl, ?_⟩
      simp only
      rw [List.getElem?_set_self hlt]
    · intro r hr
      have hne : ch ≠ r := fun heq => hr (by rw [heq])
      simp only
      rw [List.getElem?_set_ne hne]
    · apply Unsubscribe_absent
      · exact mapGet_mapDelete_self _ _
      · exact mapDelete_not_mem _ _
    · intro h
      exact absurd h (by simp)


/-- C11: in every state of the registry (well formed: registered channels open
and distinct, both maps over the same identities), `Unsubscribe(userID)`
returns; afterwards `userID` is absent from `Subscribers` and from
`ConnectedUsers`, every other identity has the entries it had, and its channel
is untouched; the channel `userID` had, if any, was open and is now closed,
and no other channel has changed.  A second `Unsubscribe(userID)` returns
(closing a closed channel would panic) and yields the very same state, so no
channel is closed twice; and if `userID` had no channel the first call already
changes nothing.  The registry is well formed in this sense after
every run from `InitGame`. -/
theorem unsubscribe_idempotent (w : World) (userID : String) (hreg : RegistryOK w)
    (hkeys : KeysAgree w) :
    ∃ w1, Unsubscribe w userID = some w1 ∧
      mapGet w1.gameState.Subscribers userID = none ∧
      mapGet w1.gameState.ConnectedUsers userID = none ∧
      (∀ k : String, k ≠ userID →
        mapGet w1.gameState.Subscribers k = mapGet w.gameState.Subscribers k ∧
        mapGet w1.gameState.ConnectedUsers k = mapGet w.gameState.ConnectedUsers k) ∧
      (∀ (k : String) (r : Nat), k ≠ userID → mapGet w.gameState.Subscribers k = some r →
        w1.chans[r]? = w.chans[r]?) ∧
      (∀ ch : Nat, mapGet w.gameState.Subscribers userID = some ch →
        ∃ c, w.chans[ch]? = some c ∧ c.closed = false ∧
          w1.chans[ch]? = some { c with closed := true }) ∧
      (∀ r : Nat, mapGet w.gameState.Subscribers userID ≠ some r →
        w1.chans[r]? = w.chans[r]?) ∧
      w1.gameState.Pet = w.gameState.Pet ∧
      Unsubscribe w1 userID = some w1 ∧
      (mapGet w.gameState.Subscribers userID = none → w1 = w) ∧
      (∀ (t1 t2 : Nat) (ops : List Op),
        ∃ w0, run (InitGame t1 t2) ops = some w0 ∧ RegistryOK w0 ∧ KeysAgree w0) := by
  obtain ⟨w1, h1, h2, h3, h4, h5, h6, h7, h8, h9, h10⟩ := Unsubscribe_twice w userID hreg hkeys
  refine ⟨w1, h1, h2, h3, h4, h5, h6, h7, h8, h9, h10, ?_⟩
  intro t1 t2 ops
  exact run_invariant_step KeysAgree step_keysAgree ops (InitGame t1 t2)
    (InitGame_registryOK t1 t2) (InitGame_keysAgree t1 t2)

theorem unsubscribe_idempotent_witness :
    RegistryOK twoSubscribers ∧ KeysAgree twoSubscribers ∧
    (∃ w1, Unsubscribe twoSubscribers "bob" = some w1 ∧
      mapGet w1.gameState.Subscribers "bob" = none ∧
      mapGet w1.gameState.ConnectedUsers "bob" = none ∧
      (∀ k : String, k ≠ "bob" →
        mapGet w1.gameState.Subscribers k = mapGet twoSubscribers.gameState.Subscribers k ∧
        mapGet w1.gameState.ConnectedUsers k = mapGet twoSubscribers.gameState.ConnectedUsers k) ∧
      (∀ (k : String) (r : Nat), k ≠ "bob" → mapGet twoSubscribers.gameState.Subscribers k = some r →
        w1.chans[r]? = twoSubscribers.chans[r]?) ∧
      (∀ ch : Nat, mapGet twoSubscribers.gameState.Subscribers "bob" = some ch →
        ∃ c, twoSubscribers.chans[ch]? = some c ∧ c.closed = false ∧
          w1.chans[ch]? = some { c with closed := true }) ∧
      (∀ r : Nat, mapGet twoSubscribers.gameState.Subscribers "bob" ≠ some r →
        w1.chans[r]? = twoSubscribers.chans[r]?) ∧
      w1.gameState.Pet = twoSubscribers.gameState.Pet ∧
      Unsubscribe w1 "bob" = some w1 ∧
      (mapGet twoSubscribers.gameState.Subscribers "bob" = none → w1 = twoSubscribers) ∧
      (∀ (t1 t2 : Nat) (ops : List Op),
        ∃ w0, run (InitGame t1 t2) ops = some w0 ∧ RegistryOK w0 ∧ KeysAgree w0)) :=
  ⟨by decide, by decide, unsubscribe_idempotent twoSubscribers "bob" (by decide) (by decide)⟩

/-! ## Channels that have left the registry -/

theorem broadcast_unregistered {w w1 : World} {u : GameUpdate} {r : Nat} (hreg : RegistryOK w)
    (hr : r ∉ w.gameState.Subscribers.map Prod.snd) (h : broadcast w u = some w1) :
    w1.chans[r]? = w.chans[r]? := by
  obtain ⟨w2, h2, _, _, _, _, hget⟩ := broadcast_spec u hreg
  rw [h] at h2
  cases h2
  rw [hget r, if_neg hr]

theorem Unsubscribe_unregistered {w w1 : World} {userID : String} {r : Nat}
    (hreg : RegistryOK w) (hr : r ∉ w.gameState.Subscribers.map Prod.snd)
    (h : Unsubscribe w userID = some w1) :
    w1.chans[r]? = w.chans[r]? ∧
      r ∉ w1.gameState.Subscribers.map Prod.snd := by
  cases hs : mapGet w.gameState.Subscribers userID with
  | none =>
    unfold Unsubscribe at h
    simp only [hs, Option.some.injEq] at h
    subst h
    exact ⟨rfl, hr⟩
  | some ch =>
    obtain ⟨c, _, _, hu⟩ := Unsubscribe_present hreg hs
    rw [h, Option.some.injEq] at hu
    subst hu
    have hne : ch ≠ r := by
      intro heq
      apply hr
      rw [← heq]
      exact List.mem_map.mpr ⟨(userID, ch), mapGet_mem hs, rfl⟩
    refine ⟨by simp only; rw [List.getElem?_set_ne hne], ?_⟩
    intro hin
    obtain ⟨e, he, her⟩ := List.mem_map.mp hin
    exact hr (List.mem_map.mpr ⟨e, (mapDelete_mem he).1, her⟩)

theorem getElem?_lt_of_eq_some {chans : List Chan} {r : Nat} {c : Chan}
    (h : chans[r]? = some c) : r < chans.length := by
  rcases Nat.lt_or_ge r chans.length with h1 | h1
  · exact h1
  · rw [List.getElem?_eq_none h1] at h
    exact absurd h (by simp)

theorem step_detached (r : Nat) (buf : List GameUpdate) (w : World) (op : Op) (w1 : World)
    (hreg : RegistryOK w) (h : Detached w r buf) (hs : step w op = some w1) :
    Detached w1 r buf := by
  obtain ⟨hr, c, hc, hcl, hsuf⟩ := h
  obtain ⟨hchans, hsub, _, _⟩ := lockedPart_frame w op
  rcases step_shape hs with ⟨u, hu⟩ | hl1 | ⟨userID, hs1⟩ | ⟨userID, hu⟩ | ⟨updates, hrecv⟩
  · have hrl : r ∉ (lockedPart w op).gameState.Subscribers.map Prod.snd := by rw [hsub]; exact hr
    have hget := broadcast_unregistered (lockedPart_registryOK op hreg) hrl hu
    have hg := (broadcast_frame hu).1
    refine ⟨by rw [hg]; exact hrl, c, ?_, hcl, hsuf⟩
    rw [hget, hchans]
    exact hc
  · rw [hl1]
    refine ⟨by rw [hsub]; exact hr, c, ?_, hcl, hsuf⟩
    rw [hchans]
    exact hc
  · rw [hs1]
    have hlt := getElem?_lt_of_eq_some hc
    refine ⟨?_, c, ?_, hcl, hsuf⟩
    · simp only [Subscribe, mapSet, List.map_append, List.map_cons, List.map_nil,
        List.mem_append, List.mem_singleton, not_or]
      refine ⟨?_, by omega⟩
      intro hin
      obtain ⟨e, he, her⟩ := List.mem_map.mp hin
      exact hr (List.mem_map.mpr ⟨e, (mapDelete_mem he).1, her⟩)
    · simp only [Subscribe]
      rw [List.getElem?_append_left hlt]
      exact hc
  · obtain ⟨hget, hnot⟩ := Unsubscribe_unregistered hreg hr hu
    exact ⟨hnot, c, by rw [hget]; exact hc, hcl, hsuf⟩
  · rw [hrecv]
    refine ⟨by rw [(waitForUpdate_frame w updates).1]; exact hr, ?_⟩
    unfold waitForUpdate
    split
    · exact ⟨c, hc, hcl, hsuf⟩
    · rename_i c0 hc0
      split
      · exact ⟨c, hc, hcl, hsuf⟩
      · rename_i u rest hbuf
        by_cases hur : updates = r
        · subst hur
          rw [hc] at hc0
          cases hc0
          refine ⟨{ c with buf := rest }, ?_, hcl, ?_⟩
          · simp only
            rw [List.getElem?_set_self (getElem?_lt_of_eq_some hc)]
          · simp only
            rw [hbuf] at hsuf
            exact List.IsSuffix.trans (List.suffix_cons u rest) hsuf
        · refine ⟨c, ?_, hcl, hsuf⟩
          simp only
          rw [List.getElem?_set_ne hur]
          exact hc

/-! ## `Subscribe` -/

theorem Subscribe_detaches {w : World} {userID : String} {c1 : Nat} (hreg : RegistryOK w)
    (hs : mapGet w.gameState.Subscribers userID = some c1) :
    c1 ∉ (Subscribe w userID).1.gameState.Subscribers.map Prod.snd := by
  have hmem := mapGet_mem hs
  have hlt : c1 < w.chans.length := chanOpen_lt (hreg.1 _ hmem)
  simp only [Subscribe, mapSet, List.map_append, List.map_cons, List.map_nil,
    List.mem_append, List.mem_singleton, not_or]
  refine ⟨?_, by omega⟩
  intro hin
  obtain ⟨e, he, her⟩ := List.mem_map.mp hin
  obtain ⟨he1, he2⟩ := mapDelete_mem he
  have := List.inj_on_of_nodup_map hreg.2 he1 hmem her
  rw [this] at he2
  exact he2 rfl

/-- C12: with a well-formed registry, `Subscribe(userID)` makes a channel that
is new (no channel of the heap before the call), empty, open and of capacity
10, registers it under `userID` and marks `userID` connected; the entries of
all other identities and all existing channels are as before.  If `userID`
already had a channel `c1`, then after the call `c1` is not in the registry
and is not closed, its queue is as before; and after any further sequence of
calls `c1` is still outside the registry and still open, its queue has only
lost entries to receives, and a `broadcast` or an `Unsubscribe` of any
identity leaves `c1` as it is.  In particular an `Unsubscribe(userID)` right
after the call closes the new channel and changes no other channel. -/
theorem subscribe_replaces_channel (w : World) (userID : String) (hreg : RegistryOK w) :
    ∃ w1 ch, Subscribe w userID = (w1, ch) ∧
      w.chans[ch]? = none ∧
      w1.chans[ch]? = some { buf := [], cap := 10, closed := false } ∧
      mapGet w1.gameState.Subscribers userID = some ch ∧
      mapGet w1.gameState.ConnectedUsers userID = some true ∧
      (∀ k : String, k ≠ userID →
        mapGet w1.gameState.Subscribers k = mapGet w.gameState.Subscribers k ∧
        mapGet w1.gameState.ConnectedUsers k = mapGet w.gameState.ConnectedUsers k) ∧
      (∀ (r : Nat) (c : Chan), w.chans[r]? = some c → w1.chans[r]? = some c) ∧
      w1.gameState.Pet = w.gameState.Pet ∧
      RegistryOK w1 ∧
      ∀ c1 : Nat, mapGet w.gameState.Subscribers userID = some c1 →
        ∃ c, w.chans[c1]? = some c ∧ c.closed = false ∧
          c1 ≠ ch ∧
          c1 ∉ w1.gameState.Subscribers.map Prod.snd ∧
          w1.chans[c1]? = some c ∧
          (∀ ops : List Op, ∃ w2, run w1 ops = some w2 ∧
            c1 ∉ w2.gameState.Subscribers.map Prod.snd ∧
            (∃ c2, w2.chans[c1]? = some c2 ∧ c2.closed = false ∧ List.IsSuffix c2.buf c.buf) ∧
            (∀ u : GameUpdate, ∃ w3, broadcast w2 u = some w3 ∧ w3.chans[c1]? = w2.chans[c1]?) ∧
            (∀ k : String, ∃ w3, Unsubscribe w2 k = some w3 ∧
              w3.chans[c1]? = w2.chans[c1]?)) ∧
          (∃ w2, Unsubscribe w1 userID = some w2 ∧
            w2.chans[ch]? = some { buf := [], cap := 10, closed := true } ∧
            ∀ r : Nat, r ≠ ch → w2.chans[r]? = w1.chans[r]?) := by
  have hreg1 := Subscribe_registryOK userID hreg
  have hnew : (Subscribe w userID).1.chans[w.chans.length]? =
      some { buf := [], cap := 10, closed := false } := by
    simp [Subscribe]
  have hold : ∀ (r : Nat) (c : Chan), w.chans[r]? = some c →
      (Subscribe w userID).1.chans[r]? = some c := by
    intro r c hc
    simp only [Subscribe]
    rw [List.getElem?_append_left (getElem?_lt_of_eq_some hc)]
    exact hc
  have hget : mapGet (Subscribe w userID).1.gameState.Subscribers userID =
      some w.chans.length := mapGet_mapSet_self _ _ _
  refine ⟨(Subscribe w userID).1, w.chans.length, rfl, List.getElem?_eq_none (le_refl _), hnew,
    hget, mapGet_mapSet_self _ _ _, ?_, hold, rfl, hreg1, ?_⟩
  · intro k hk
    exact ⟨mapGet_mapSet_ne _ _ hk, mapGet_mapSet_ne _ _ hk⟩
  · intro c1 hs
    obtain ⟨c, hc, hcl⟩ := chanOpen_iff.mp (hreg.1 _ (mapGet_mem hs))
    simp only at hc
    have hlt := getElem?_lt_of_eq_some hc
    have hnot := Subscribe_detaches hreg hs
    have hdet : Detached (Subscribe w userID).1 c1 c.buf :=
      ⟨hnot, c, hold c1 c hc, hcl, List.suffix_refl _⟩
    refine ⟨c, hc, hcl, by omega, hnot, hold c1 c hc, ?_, ?_⟩
    · intro ops
      obtain ⟨w2, hrun, hreg2, hdet2⟩ :=
        run_invariant_step (fun x => Detached x c1 c.buf) (step_detached c1 c.buf) ops
          (Subscribe w userID).1 hreg1 hdet
      refine ⟨w2, hrun, hdet2.1, hdet2.2, ?_, ?_⟩
      · intro u
        obtain ⟨w3, h3, _⟩ := broadcast_spec u hreg2
        exact ⟨w3, h3, broadcast_unregistered hreg2 hdet2.1 h3⟩
      · intro k
        obtain ⟨w3, h3, _⟩ := Unsubscribe_spec k hreg2
        exact ⟨w3, h3, (Unsubscribe_unregistered hreg2 hdet2.1 h3).1⟩
    · obtain ⟨c0, hc0, _, hu⟩ := Unsubscribe_present hreg1 hget
      rw [hnew] at hc0
      cases hc0
      refine ⟨_, hu, ?_, ?_⟩
      · simp only
        rw [List.getElem?_set_self (getElem?_lt_of_eq_some hnew)]
      · intro r hr
        simp only
        rw [List.getElem?_set_ne (fun h => hr h.symm)]

theorem subscribe_replaces_channel_witness :
    RegistryOK twoSubscribers ∧
      ∃ w1 ch, Subscribe twoSubscribers "eve" = (w1, ch) ∧
        twoSubscribers.chans[ch]? = none ∧
        w1.chans[ch]? = some { buf := [], cap := 10, closed := false } ∧
        mapGet w1.gameState.Subscribers "eve" = some ch ∧
        mapGet w1.gameState.ConnectedUsers "eve" = some true ∧
        (∀ k : String, k ≠ "eve" →
          mapGet w1.gameState.Subscribers k = mapGet twoSubscribers.gameState.Subscribers k ∧
          mapGet w1.gameState.ConnectedUsers k =
            mapGet twoSubscribers.gameState.ConnectedUsers k) ∧
        (∀ (r : Nat) (c : Chan), twoSubscribers.chans[r]? = some c → w1.chans[r]? = some c) ∧
        w1.gameState.Pet = twoSubscribers.gameState.Pet ∧
        RegistryOK w1 ∧
        ∀ c1 : Nat, mapGet twoSubscribers.gameState.Subscribers "eve" = some c1 →
          ∃ c, twoSubscribers.chans[c1]? = some c ∧ c.closed = false ∧
            c1 ≠ ch ∧
            c1 ∉ w1.gameState.Subscribers.map Prod.snd ∧
            w1.chans[c1]? = some c ∧
            (∀ ops : List Op, ∃ w2, run w1 ops = some w2 ∧
              c1 ∉ w2.gameState.Subscribers.map Prod.snd ∧
              (∃ c2, w2.chans[c1]? = some c2 ∧ c2.closed = false ∧
                List.IsSuffix c2.buf c.buf) ∧
              (∀ u : GameUpdate, ∃ w3, broadcast w2 u = some w3 ∧
                w3.chans[c1]? = w2.chans[c1]?) ∧
              (∀ k : String, ∃ w3, Unsubscribe w2 k = some w3 ∧
                w3.chans[c1]? = w2.chans[c1]?)) ∧
            (∃ w2, Unsubscribe w1 "eve" = some w2 ∧
              w2.chans[ch]? = some { buf := [], cap := 10, closed := true } ∧
              ∀ r : Nat, r ≠ ch → w2.chans[r]? = w1.chans[r]?) :=
  ⟨by decide, subscribe_replaces_channel twoSubscribers "eve" (by decide)⟩

/-! ## What the mood depends on -/

theorem feedLocked_mood_health {w w2 : World} (user user2 : String) (now ts now2 ts2 : Nat)
    (hH : w.gameState.Pet.Health = w2.gameState.Pet.Health)
    (hX : w.gameState.Pet.MaxHealth = w2.gameState.Pet.MaxHealth) :
    (feedLocked w user now ts).1.gameState.Pet.Mood =
        (feedLocked w2 user2 now2 ts2).1.gameState.Pet.Mood ∧
      (feedLocked w user now ts).1.gameState.Pet.Health =
        (feedLocked w2 user2 now2 ts2).1.gameState.Pet.Health := by
  simp only [feedLocked, setPet_pet, hH, hX]
  split_ifs <;> simp only [setPet_pet, addAction_mood, addAction_health] at * <;> simp_all

theorem petLocked_mood_health {w w2 : World} (user user2 : String) (now ts now2 ts2 : Nat)
    (hH : w.gameState.Pet.Health = w2.gameState.Pet.Health)
    (hM : w.gameState.Pet.Mood = w2.gameState.Pet.Mood)
    (hX : w.gameState.Pet.MaxHealth = w2.gameState.Pet.MaxHealth) :
    (petLocked w user now ts).1.gameState.Pet.Mood =
        (petLocked w2 user2 now2 ts2).1.gameState.Pet.Mood ∧
      (petLocked w user now ts).1.gameState.Pet.Health =
        (petLocked w2 user2 now2 ts2).1.gameState.Pet.Health := by
  simp only [petLocked, setPet_pet, hH, hM, hX]
  split_ifs <;> simp only [setPet_pet, addAction_mood, addAction_health] at * <;> simp_all

theorem hitLocked_mood_health {w w2 : World} (user user2 : String) (ts ts2 : Nat)
    (hH : w.gameState.Pet.Health = w2.gameState.Pet.Health)
    (hM : w.gameState.Pet.Mood = w2.gameState.Pet.Mood) :
    (hitLocked w user ts).1.gameState.Pet.Mood =
        (hitLocked w2 user2 ts2).1.gameState.Pet.Mood ∧
      (hitLocked w user ts).1.gameState.Pet.Health =
        (hitLocked w2 user2 ts2).1.gameState.Pet.Health := by
  simp only [hitLocked, setPet_pet, hH, hM]
  split_ifs <;> simp only [setPet_pet, addAction_mood, addAction_health] at * <;> simp_all

theorem decayLocked_mood_health {w w2 : World} (ts ts2 : Nat)
    (hH : w.gameState.Pet.Health = w2.gameState.Pet.Health)
    (hM : w.gameState.Pet.Mood = w2.gameState.Pet.Mood) :
    (decayLocked w ts).gameState.Pet.Mood = (decayLocked w2 ts2).gameState.Pet.Mood ∧
      (decayLocked w ts).gameState.Pet.Health = (decayLocked w2 ts2).gameState.Pet.Health := by
  simp only [decayLocked, setPet_pet, hH, hM]
  split_ifs <;> simp only [setPet_pet, addAction_mood, addAction_health] at * <;> simp_all

/-- C14, counterexample: two runs from `InitGame` end in states with the same
`Health` (14) and the same action log, whose most recent entry is
`{User: "u", Type: "petted"}`, but with different moods: `content` where the
decay tick came before the `PetPet`, `dying` where it came after. -/
theorem mood_differs_same_health_same_log :
    ∃ wA wB,
      run (InitGame 0 0) [Op.hit "u" 1, Op.hit "u" 2, Op.tick 3, Op.pet "u" 4 4] = some wA ∧
      run (InitGame 0 0) [Op.hit "u" 1, Op.hit "u" 2, Op.pet "u" 4 4, Op.tick 5] = some wB ∧
      wA.gameState.Pet.Health = 14 ∧ wB.gameState.Pet.Health = 14 ∧
      wA.gameState.Pet.Actions = wB.gameState.Pet.Actions ∧
      wA.gameState.Pet.Actions.getLast? =
        some { User := "u", Typ := "petted", Timestamp := 4 } ∧
      wA.gameState.Pet.Mood = "content" ∧ wB.gameState.Pet.Mood = "dying" ∧
      wA.gameState.Pet.Mood ≠ wB.gameState.Pet.Mood :=
  ⟨_, _, rfl, rfl, by decide, by decide, by decide, by decide, by decide, by decide,
    by decide⟩

/-- C14, amended: the mood after a call is determined by the health and the
mood before it and by which call it is.  From `InitGame`, any two finite
sequences of calls run to completion, and if the two states they end in have
the same `Health` and the same `Mood`, then the same call on both (`FeedPet`,
`PetPet` or `HitPet` by whatever users at whatever times, or a decay tick)
returns and leaves the same `Mood` and the same `Health`. -/
theorem mood_follows_from_previous_state (t1 t2 t3 t4 : Nat) (opsA opsB : List Op) :
    ∃ wA wB, run (InitGame t1 t2) opsA = some wA ∧ run (InitGame t3 t4) opsB = some wB ∧
      (wA.gameState.Pet.Health = wB.gameState.Pet.Health →
        wA.gameState.Pet.Mood = wB.gameState.Pet.Mood →
        (∀ (userA userB : String) (nowA tsA nowB tsB : Nat),
          ∃ a b, FeedPet wA userA nowA tsA = some a ∧ FeedPet wB userB nowB tsB = some b ∧
            a.1.gameState.Pet.Mood = b.1.gameState.Pet.Mood ∧
            a.1.gameState.Pet.Health = b.1.gameState.Pet.Health) ∧
        (∀ (userA userB : String) (nowA tsA nowB tsB : Nat),
          ∃ a b, PetPet wA userA nowA tsA = some a ∧ PetPet wB userB nowB tsB = some b ∧
            a.1.gameState.Pet.Mood = b.1.gameState.Pet.Mood ∧
            a.1.gameState.Pet.Health = b.1.gameState.Pet.Health) ∧
        (∀ (userA userB : String) (tsA tsB : Nat),
          ∃ a b, HitPet wA userA tsA = some a ∧ HitPet wB userB tsB = some b ∧
            a.1.gameState.Pet.Mood = b.1.gameState.Pet.Mood ∧
            a.1.gameState.Pet.Health = b.1.gameState.Pet.Health) ∧
        (∀ tsA tsB : Nat,
          ∃ a b, healthDecayTick wA tsA = some a ∧ healthDecayTick wB tsB = some b ∧
            a.gameState.Pet.Mood = b.gameState.Pet.Mood ∧
            a.gameState.Pet.Health = b.gameState.Pet.Health)) := by
  obtain ⟨wA, hrunA, hregA, hbA⟩ :=
    run_invariant PetBounds petBounds_congr lockedPart_petBounds opsA (InitGame t1 t2)
      (InitGame_registryOK t1 t2) (InitGame_petBounds t1 t2)
  obtain ⟨wB, hrunB, hregB, hbB⟩ :=
    run_invariant PetBounds petBounds_congr lockedPart_petBounds opsB (InitGame t3 t4)
      (InitGame_registryOK t3 t4) (InitGame_petBounds t3 t4)
  have hX : wA.gameState.Pet.MaxHealth = wB.gameState.Pet.MaxHealth := by
    rw [hbA.1, hbB.1]
  refine ⟨wA, wB, hrunA, hrunB, ?_⟩
  intro hH hM
  refine ⟨?_, ?_, ?_, ?_⟩
  · intro userA userB nowA tsA nowB tsB
    obtain ⟨a, ha, hpa⟩ := FeedPet_result userA nowA tsA hregA
    obtain ⟨b, hb, hpb⟩ := FeedPet_result userB nowB tsB hregB
    have hd := feedLocked_mood_health userA userB nowA tsA nowB tsB hH hX
    exact ⟨_, _, ha, hb, by simp only [hpa, hpb, hd.1], by simp only [hpa, hpb, hd.2]⟩
  · intro userA userB nowA tsA nowB tsB
    obtain ⟨a, ha, hpa⟩ := PetPet_result userA nowA tsA hregA
    obtain ⟨b, hb, hpb⟩ := PetPet_result userB nowB tsB hregB
    have hd := petLocked_mood_health userA userB nowA tsA nowB tsB hH hM hX
    exact ⟨_, _, ha, hb, by simp only [hpa, hpb, hd.1], by simp only [hpa, hpb, hd.2]⟩
  · intro userA userB tsA tsB
    obtain ⟨a, ha, hpa⟩ := HitPet_result userA tsA hregA
    obtain ⟨b, hb, hpb⟩ := HitPet_result userB tsB hregB
    have hd := hitLocked_mood_health userA userB tsA tsB hH hM
    exact ⟨_, _, ha, hb, by simp only [hpa, hpb, hd.1], by simp only [hpa, hpb, hd.2]⟩
  · intro tsA tsB
    obtain ⟨a, ha, hga, _, _⟩ := healthDecayTick_spec tsA hregA
    obtain ⟨b, hb, hgb, _, _⟩ := healthDecayTick_spec tsB hregB
    have hd := decayLocked_mood_health tsA tsB hH hM
    exact ⟨a, b, ha, hb, by rw [hga, hgb, hd.1], by rw [hga, hgb, hd.2]⟩

/-! ## Fields of the pet that a call leaves alone -/

theorem lockedPart_static (w : World) (op : Op) :
    (lockedPart w op).gameState.Pet.Name = w.gameState.Pet.Name ∧
      (lockedPart w op).gameState.Pet.MaxHealth = w.gameState.Pet.MaxHealth := by
  cases op with
  | feed user now ts =>
    simp only [lockedPart, feedLocked]
    split_ifs <;> simp
  | pet user now ts =>
    simp only [lockedPart, petLocked]
    split_ifs <;> simp
  | hit user ts =>
    simp only [lockedPart, hitLocked]
    split_ifs <;> simp
  | tick ts =>
    simp only [lockedPart, decayLocked]
    split_ifs <;> simp
  | subscribe _ => exact ⟨rfl, rfl⟩
  | unsubscribe _ => exact ⟨rfl, rfl⟩
  | getState => exact ⟨rfl, rfl⟩
  | receive _ => exact ⟨rfl, rfl⟩

theorem feedLocked_frame (w : World) (user : String) (now ts : Nat) :
    (feedLocked w user now ts).1.gameState.Pet.LastPet = w.gameState.Pet.LastPet ∧
      (w.gameState.Pet.Health ≤ 0 →
        (feedLocked w user now ts).1.gameState.Pet.LastFed = w.gameState.Pet.LastFed) := by
  simp only [feedLocked]
  split_ifs with h <;> simp [h]

theorem petLocked_frame (w : World) (user : String) (now ts : Nat) :
    (petLocked w user now ts).1.gameState.Pet.LastFed = w.gameState.Pet.LastFed := by
  simp only [petLocked]
  split_ifs <;> simp

theorem hitLocked_frame (w : World) (user : String) (ts : Nat) :
    (hitLocked w user ts).1.gameState.Pet.LastFed = w.gameState.Pet.LastFed ∧
      (hitLocked w user ts).1.gameState.Pet.LastPet = w.gameState.Pet.LastPet := by
  simp only [hitLocked]
  split_ifs <;> simp

theorem decayLocked_frame (w : World) (ts : Nat) :
    (decayLocked w ts).gameState.Pet.LastFed = w.gameState.Pet.LastFed ∧
      (decayLocked w ts).gameState.Pet.LastPet = w.gameState.Pet.LastPet := by
  simp only [decayLocked]
  split_ifs <;> simp

theorem lockedPart_petStatic (w : World) (op : Op) (h : PetStatic w) :
    PetStatic (lockedPart w op) := by
  unfold PetStatic at *
  rw [(lockedPart_static w op).1, (lockedPart_static w op).2]
  exact h

theorem petStatic_congr (w w1 : World) (hp : w1.gameState.Pet = w.gameState.Pet)
    (_hr : w1.recorded = w.recorded) (h : PetStatic w) : PetStatic w1 := by
  unfold PetStatic at *
  rw [hp]
  exact h

/-- C15: with a well-formed registry every call returns, and no call changes
`Pet.Name` or `Pet.MaxHealth`.  `FeedPet` leaves `LastPet` as it is, and on a
dead pet also `LastFed`; `PetPet` leaves `LastFed` as it is; `HitPet` and the
decay tick leave `LastFed` and `LastPet` as they are; `GetGameState` returns
the pet, and `Subscribe`, `Unsubscribe` and `broadcast` leave the whole pet as
it is.  From `InitGame`, after every run, `Name` is `"Jankypet"` and
`MaxHealth` is 100. -/
theorem pet_fields_frame (w : World) (hreg : RegistryOK w) :
    (∀ (user : String) (now ts : Nat), ∃ w1 ret, FeedPet w user now ts = some (w1, ret) ∧
      w1.gameState.Pet.Name = w.gameState.Pet.Name ∧
      w1.gameState.Pet.MaxHealth = w.gameState.Pet.MaxHealth ∧
      w1.gameState.Pet.LastPet = w.gameState.Pet.LastPet ∧
      (w.gameState.Pet.Health ≤ 0 → w1.gameState.Pet.LastFed = w.gameState.Pet.LastFed)) ∧
    (∀ (user : String) (now ts : Nat), ∃ w1 ret, PetPet w user now ts = some (w1, ret) ∧
      w1.gameState.Pet.Name = w.gameState.Pet.Name ∧
      w1.gameState.Pet.MaxHealth = w.gameState.Pet.MaxHealth ∧
      w1.gameState.Pet.LastFed = w.gameState.Pet.LastFed) ∧
    (∀ (user : String) (ts : Nat), ∃ w1 ret, HitPet w user ts = some (w1, ret) ∧
      w1.gameState.Pet.Name = w.gameState.Pet.Name ∧
      w1.gameState.Pet.MaxHealth = w.gameState.Pet.MaxHealth ∧
      w1.gameState.Pet.LastFed = w.gameState.Pet.LastFed ∧
      w1.gameState.Pet.LastPet = w.gameState.Pet.LastPet) ∧
    (∀ ts : Nat, ∃ w1, healthDecayTick w ts = some w1 ∧
      w1.gameState.Pet.Name = w.gameState.Pet.Name ∧
      w1.gameState.Pet.MaxHealth = w.gameState.Pet.MaxHealth ∧
      w1.gameState.Pet.LastFed = w.gameState.Pet.LastFed ∧
      w1.gameState.Pet.LastPet = w.gameState.Pet.LastPet) ∧
    GetGameState w = w.gameState.Pet ∧
    (∀ userID : String, (Subscribe w userID).1.gameState.Pet = w.gameState.Pet) ∧
    (∀ userID : String, ∃ w1, Unsubscribe w userID = some w1 ∧
      w1.gameState.Pet = w.gameState.Pet) ∧
    (∀ update : GameUpdate, ∃ w1, broadcast w update = some w1 ∧
      w1.gameState.Pet = w.gameState.Pet) ∧
    (∀ (t1 t2 : Nat) (ops : List Op), ∃ w0, run (InitGame t1 t2) ops = some w0 ∧
      RegistryOK w0 ∧ w0.gameState.Pet.Name = "Jankypet" ∧
      w0.gameState.Pet.MaxHealth = 100) := by
  refine ⟨?_, ?_, ?_, ?_, rfl, fun _ => rfl, ?_, ?_, ?_⟩
  · intro user now ts
    obtain ⟨w1, h1, hp⟩ := FeedPet_result user now ts hreg
    have hs := lockedPart_static w (.feed user now ts)
    have hf := feedLocked_frame w user now ts
    simp only [lockedPart] at hs
    refine ⟨w1, _, h1, ?_, ?_, ?_, ?_⟩
    · rw [hp]; exact hs.1
    · rw [hp]; exact hs.2
    · rw [hp]; exact hf.1
    · intro h; rw [hp]; exact hf.2 h
  · intro user now ts
    obtain ⟨w1, h1, hp⟩ := PetPet_result user now ts hreg
    have hs := lockedPart_static w (.pet user now ts)
    simp only [lockedPart] at hs
    refine ⟨w1, _, h1, ?_, ?_, ?_⟩
    · rw [hp]; exact hs.1
    · rw [hp]; exact hs.2
    · rw [hp]; exact petLocked_frame w user now ts
  · intro user ts
    obtain ⟨w1, h1, hp⟩ := HitPet_result user ts hreg
    have hs := lockedPart_static w (.hit user ts)
    have hf := hitLocked_frame w user ts
    simp only [lockedPart] at hs
    refine ⟨w1, _, h1, ?_, ?_, ?_, ?_⟩
    · rw [hp]; exact hs.1
    · rw [hp]; exact hs.2
    · rw [hp]; exact hf.1
    · rw [hp]; exact hf.2
  · intro ts
    obtain ⟨w1, h1, hg, _, _⟩ := healthDecayTick_spec ts hreg
    have hs := lockedPart_static w (.tick ts)
    have hf := decayLocked_frame w ts
    simp only [lockedPart] at hs
    refine ⟨w1, h1, ?_, ?_, ?_, ?_⟩
    · rw [hg]; exact hs.1
    · rw [hg]; exact hs.2
    · rw [hg]; exact hf.1
    · rw [hg]; exact hf.2
  · intro userID
    obtain ⟨w1, h1, _, hp, _, _⟩ := Unsubscribe_spec userID hreg
    exact ⟨w1, h1, hp⟩
  · intro update
    obtain ⟨w1, h1, hg, _⟩ := broadcast_spec update hreg
    exact ⟨w1, h1, by rw [hg]⟩
  · intro t1 t2 ops
    obtain ⟨w0, hrun, hreg0, hst⟩ :=
      run_invariant PetStatic petStatic_congr lockedPart_petStatic ops (InitGame t1 t2)
        (InitGame_registryOK t1 t2) ⟨rfl, rfl⟩
    exact ⟨w0, hrun, hreg0, hst.1, hst.2⟩

theorem pet_fields_frame_witness :
    RegistryOK (sampleWorld 0 "dead" "killed") ∧
    ((∀ (user : String) (now ts : Nat), ∃ w1 ret, FeedPet (sampleWorld 0 "dead" "killed") user now ts = some (w1, ret) ∧
      w1.gameState.Pet.Name = (sampleWorld 0 "dead" "killed").gameState.Pet.Name ∧
      w1.gameState.Pet.MaxHealth = (sampleWorld 0 "dead" "killed").gameState.Pet.MaxHealth ∧
      w1.gameState.Pet.LastPet = (sampleWorld 0 "dead" "killed").gameState.Pet.LastPet ∧
      ((sampleWorld 0 "dead" "killed").gameState.Pet.Health ≤ 0 → w1.gameState.Pet.LastFed = (sampleWorld 0 "dead" "killed").gameState.Pet.LastFed)) ∧
    (∀ (user : String) (now ts : Nat), ∃ w1 ret, PetPet (sampleWorld 0 "dead" "killed") user now ts = some (w1, ret) ∧
      w1.gameState.Pet.Name = (sampleWorld 0 "dead" "killed").gameState.Pet.Name ∧
      w1.gameState.Pet.MaxHealth = (sampleWorld 0 "dead" "killed").gameState.Pet.MaxHealth ∧
      w1.gameState.Pet.LastFed = (sampleWorld 0 "dead" "killed").gameState.Pet.LastFed) ∧
    (∀ (user : String) (ts : Nat), ∃ w1 ret, HitPet (sampleWorld 0 "dead" "killed") user ts = some (w1, ret) ∧
      w1.gameState.Pet.Name = (sampleWorld 0 "dead" "killed").gameState.Pet.Name ∧
      w1.gameState.Pet.MaxHealth = (sampleWorld 0 "dead" "killed").gameState.Pet.MaxHealth ∧
      w1.gameState.Pet.LastFed = (sampleWorld 0 "dead" "killed").gameState.Pet.LastFed ∧
      w1.gameState.Pet.LastPet = (sampleWorld 0 "dead" "killed").gameState.Pet.LastPet) ∧
    (∀ ts : Nat, ∃ w1, healthDecayTick (sampleWorld 0 "dead" "killed") ts = some w1 ∧
      w1.gameState.Pet.Name = (sampleWorld 0 "dead" "killed").gameState.Pet.Name ∧
      w1.gameState.Pet.MaxHealth = (sampleWorld 0 "dead" "killed").gameState.Pet.MaxHealth ∧
      w1.gameState.Pet.LastFed = (sampleWorld 0 "dead" "killed").gameState.Pet.LastFed ∧
      w1.gameState.Pet.LastPet = (sampleWorld 0 "dead" "killed").gameState.Pet.LastPet) ∧
    GetGameState (sampleWorld 0 "dead" "killed") = (sampleWorld 0 "dead" "killed").gameState.Pet ∧
    (∀ userID : String, (Subscribe (sampleWorld 0 "dead" "killed") userID).1.gameState.Pet = (sampleWorld 0 "dead" "killed").gameState.Pet) ∧
    (∀ userID : String, ∃ w1, Unsubscribe (sampleWorld 0 "dead" "killed") userID = some w1 ∧
      w1.gameState.Pet = (sampleWorld 0 "dead" "killed").gameState.Pet) ∧
    (∀ update : GameUpdate, ∃ w1, broadcast (sampleWorld 0 "dead" "killed") update = some w1 ∧
      w1.gameState.Pet = (sampleWorld 0 "dead" "killed").gameState.Pet) ∧
    (∀ (t1 t2 : Nat) (ops : List Op), ∃ w0, run (InitGame t1 t2) ops = some w0 ∧
      RegistryOK w0 ∧ w0.gameState.Pet.Name = "Jankypet" ∧
      w0.gameState.Pet.MaxHealth = 100)) :=
  ⟨by decide, pet_fields_frame (sampleWorld 0 "dead" "killed") (by decide)⟩

/-! ## Who is recorded in the log -/

/-- A critical section records at most one action: `died` by `system` in a
decay tick, or an action of another type by the user the call was made with. -/
theorem lockedPart_recorded (w : World) (op : Op) :
    (lockedPart w op).recorded = w.recorded ∨
      ∃ a, (lockedPart w op).recorded = w.recorded ++ [a] ∧
        ((a.User = "system" ∧ a.Typ = "died" ∧ opUser op = none) ∨
          (opUser op = some a.User ∧ a.Typ ≠ "died")) := by
  cases op with
  | feed user now ts =>
    simp only [lockedPart, feedLocked]
    split_ifs <;> exact Or.inr ⟨_, rfl, Or.inr ⟨rfl, by simp⟩⟩
  | pet user now ts =>
    simp only [lockedPart, petLocked]
    split_ifs <;>
      first
        | exact Or.inl rfl
        | exact Or.inr ⟨_, rfl, Or.inr ⟨rfl, by simp⟩⟩
  | hit user ts =>
    simp only [lockedPart, hitLocked]
    split_ifs <;>
      first
        | exact Or.inl rfl
        | exact Or.inr ⟨_, rfl, Or.inr ⟨rfl, by simp⟩⟩
  | tick ts =>
    simp only [lockedPart, decayLocked]
    split_ifs <;>
      first
        | exact Or.inl rfl
        | exact Or.inr ⟨_, rfl, Or.inl ⟨rfl, rfl, rfl⟩⟩
  | subscribe _ => exact Or.inl rfl
  | unsubscribe _ => exact Or.inl rfl
  | getState => exact Or.inl rfl
  | receive _ => exact Or.inl rfl

/-- Induction over runs whose calls all satisfy `Q`. -/
theorem run_invariant_where (Q : Op → Prop) (P : World → Prop)
    (hcongr : ∀ w w1 : World, w1.gameState.Pet = w.gameState.Pet → w1.recorded = w.recorded →
      P w → P w1)
    (hstep : ∀ w op, Q op → P w → P (lockedPart w op)) :
    ∀ (ops : List Op) (w : World), (∀ op ∈ ops, Q op) → RegistryOK w → P w →
      ∃ w1, run w ops = some w1 ∧ RegistryOK w1 ∧ P w1 := by
  intro ops
  induction ops with
  | nil =>
    intro w _ hreg hP
    exact ⟨w, rfl, hreg, hP⟩
  | cons op ops ih =>
    intro w hQ hreg hP
    obtain ⟨w1, h1, hreg1, hpet, hrec⟩ := step_spec op hreg
    have hQop : Q op := hQ op (List.mem_cons_self _ _)
    have hQops : ∀ o ∈ ops, Q o := fun o ho => hQ o (List.mem_cons_of_mem _ ho)
    obtain ⟨w2, h2, hreg2, hP2⟩ :=
      ih w1 hQops hreg1 (hcongr _ _ hpet hrec (hstep w op hQop hP))
    refine ⟨w2, ?_, hreg2, hP2⟩
    simp only [run, h1]
    exact h2

theorem lockedPart_diedBySystem (w : World) (op : Op) (h : DiedBySystem w) :
    DiedBySystem (lockedPart w op) := by
  unfold DiedBySystem at *
  rcases lockedPart_recorded w op with hr | ⟨a, hr, ha⟩
  · rw [hr]
    exact h
  · rw [hr]
    intro b hb hdied
    rw [List.mem_append, List.mem_singleton] at hb
    rcases hb with hb | hb
    · exact h b hb hdied
    · subst hb
      rcases ha with ⟨hu, _, _⟩ | ⟨_, hne⟩
      · exact hu
      · exact absurd hdied hne

theorem lockedPart_systemOnlyDied (w : World) (op : Op) (hop : opUser op ≠ some "system")
    (h : SystemOnlyDied w) : SystemOnlyDied (lockedPart w op) := by
  unfold SystemOnlyDied at *
  rcases lockedPart_recorded w op with hr | ⟨a, hr, ha⟩
  · rw [hr]
    exact h
  · rw [hr]
    intro b hb hsys
    rw [List.mem_append, List.mem_singleton] at hb
    rcases hb with hb | hb
    · exact h b hb hsys
    · subst hb
      rcases ha with ⟨_, hd, _⟩ | ⟨hu, _⟩
      · exact hd
      · rw [hsys] at hu
        exact absurd hu hop

theorem mem_actions_of_lastFive {w : World} (h : ActionsAreLastFive w) {a : Action}
    (ha : a ∈ w.gameState.Pet.Actions) : a ∈ w.recorded := by
  unfold ActionsAreLastFive at h
  rw [h] at ha
  exact List.mem_of_mem_drop ha

/-- C16, counterexample: a caller may pass the user string `"system"`; after
`FeedPet("system")` from `InitGame` the log holds an action with user
`"system"` whose type is `fed`, not `died`. -/
theorem system_user_can_feed :
    ∃ w, run (InitGame 0 0) [Op.feed "system" 1 1] = some w ∧
      w.gameState.Pet.Actions = [{ User := "system", Typ := "fed", Timestamp := 1 }] ∧
      ∃ a ∈ w.gameState.Pet.Actions, a.User = "system" ∧ a.Typ ≠ "died" :=
  ⟨_, rfl, by decide, by decide⟩

/-- C16, amended: from `InitGame`, every finite sequence of calls runs to
completion, and in the state it ends in every action of type `died`, in the
log and among all actions ever recorded, has user `"system"`; and if no
`FeedPet`, `PetPet` or `HitPet` of the sequence was called with the user
string `"system"`, then every action with user `"system"` has type `died`. -/
theorem system_identity_in_log (t1 t2 : Nat) (ops : List Op) :
    ∃ w, run (InitGame t1 t2) ops = some w ∧
      (∀ a ∈ w.recorded, a.Typ = "died" → a.User = "system") ∧
      (∀ a ∈ w.gameState.Pet.Actions, a.Typ = "died" → a.User = "system") ∧
      ((∀ op ∈ ops, opUser op ≠ some "system") →
        (∀ a ∈ w.recorded, a.User = "system" → a.Typ = "died") ∧
        (∀ a ∈ w.gameState.Pet.Actions, a.User = "system" → a.Typ = "died")) := by
  obtain ⟨w, hrun, _, h5, hd⟩ :=
    run_invariant (fun w => ActionsAreLastFive w ∧ DiedBySystem w)
      (fun w w1 hp hr h => ⟨lastFive_congr w w1 hp hr h.1, by
        have := h.2
        unfold DiedBySystem at *
        rw [hr]
        exact this⟩)
      (fun w op h => ⟨lockedPart_lastFive w op h.1, lockedPart_diedBySystem w op h.2⟩)
      ops (InitGame t1 t2) (InitGame_registryOK t1 t2)
      ⟨rfl, by
        intro a ha
        simp [InitGame] at ha⟩
  refine ⟨w, hrun, hd, fun a ha => hd a (mem_actions_of_lastFive h5 ha), ?_⟩
  intro hops
  obtain ⟨w2, hrun2, _, hs⟩ :=
    run_invariant_where (fun op => opUser op ≠ some "system") SystemOnlyDied
      (fun w w1 _ hr h => by
        unfold SystemOnlyDied at *
        rw [hr]
        exact h)
      lockedPart_systemOnlyDied ops (InitGame t1 t2) hops (InitGame_registryOK t1 t2)
      (by
        intro a ha
        simp [InitGame] at ha)
  rw [hrun] at hrun2
  cases hrun2
  exact ⟨hs, fun a ha => hs a (mem_actions_of_lastFive h5 ha)⟩

/-! ## Consecutive decay ticks -/

theorem ticks_spec : ∀ (tss : List Nat) (w : World), RegistryOK w →
    0 ≤ w.gameState.Pet.Health → w.gameState.Pet.Health ≤ maxInt →
    ∃ w1, run w (tss.map Op.tick) = some w1 ∧
      w1.gameState.Pet.Health = max (w.gameState.Pet.Health - tss.length) 0 ∧
      (w.gameState.Pet.Health = 0 →
        w1.gameState.Pet = w.gameState.Pet ∧ w1.recorded = w.recorded) ∧
      (0 < w.gameState.Pet.Health → w.gameState.Pet.Health ≤ tss.length →
        ∃ ts, tss[(w.gameState.Pet.Health - 1).toNat]? = some ts ∧
          w1.recorded = w.recorded ++ [{ User := "system", Typ := "died", Timestamp := ts }] ∧
          w1.gameState.Pet.Actions =
            (w.gameState.Pet.Actions ++
              [({ User := "system", Typ := "died", Timestamp := ts } : Action)]).drop
              (w.gameState.Pet.Actions.length + 1 - 5) ∧
          w1.gameState.Pet.Mood = "dead") ∧
      ((tss.length : Int) < w.gameState.Pet.Health →
        w1.recorded = w.recorded ∧ w1.gameState.Pet.Actions = w.gameState.Pet.Actions) ∧
      (∃ us, w1.sent = w.sent ++ us ∧ us.length = tss.length ∧ ∀ u ∈ us, u.Message = "") := by
  intro tss
  induction tss with
  | nil =>
    intro w _ h0 _
    refine ⟨w, rfl, ?_, fun _ => ⟨rfl, rfl⟩, ?_, fun _ => ⟨rfl, rfl⟩, [], by simp, rfl, by simp⟩
    · simp only [List.length_nil, Nat.cast_zero, sub_zero]
      omega
    · intro hpos hle
      simp only [List.length_nil, Nat.cast_zero] at hle
      omega
  | cons ts rest ih =>
    intro w hreg h0 hty
    obtain ⟨w2, h2, hg, hr, hs0⟩ := healthDecayTick_spec ts hreg
    obtain ⟨u0, hs, hu0⟩ : ∃ u0 : GameUpdate, w2.sent = w.sent ++ [u0] ∧ u0.Message = "" :=
      ⟨_, hs0, rfl⟩
    obtain ⟨w3, h3, hreg2, _, _⟩ := step_spec (.tick ts) hreg
    have h23 : w3 = w2 := by
      simp only [step] at h3
      rw [h2] at h3
      exact (Option.some.inj h3).symm
    subst h23
    have hrunw : ∀ x, run w3 (rest.map Op.tick) = some x →
        run w ((ts :: rest).map Op.tick) = some x := by
      intro x hx
      simp only [List.map_cons, run, step, h2]
      exact hx
    rcases lt_trichotomy w.gameState.Pet.Health 1 with hlt | heq | hgt
    · have hz : w.gameState.Pet.Health = 0 := by omega
      rw [decayLocked_dead ts (le_of_eq hz)] at hg hr
      have hz2 : w3.gameState.Pet.Health = 0 := by rw [hg]; exact hz
      obtain ⟨w1, hrun, hH, hzero, _, _, us, hus, hlen, hmsg⟩ :=
        ih w3 hreg2 (by omega) (by rw [hz2]; unfold maxInt; omega)
      obtain ⟨hp1, hr1⟩ := hzero hz2
      refine ⟨w1, hrunw w1 hrun, ?_, ?_, ?_, ?_, ?_⟩
      · rw [hp1, hg, hz]
        simp only [List.length_cons, Nat.cast_add, Nat.cast_one]
        omega
      · intro _
        exact ⟨by rw [hp1, hg], by rw [hr1, hr]⟩
      · intro hpos
        omega
      · intro _
        exact ⟨by rw [hr1, hr], by rw [hp1, hg]⟩
      · refine ⟨u0 :: us, ?_, by simp [hlen], ?_⟩
        · rw [hus, hs, List.append_assoc]
          rfl
        · intro u hu
          rw [List.mem_cons] at hu
          rcases hu with hu | hu
          · rw [hu]
            exact hu0
          · exact hmsg u hu
    · rw [decayLocked_dies ts heq] at hg hr
      have hz2 : w3.gameState.Pet.Health = 0 := by rw [hg]; rfl
      obtain ⟨w1, hrun, hH, hzero, _, _, us, hus, hlen, hmsg⟩ :=
        ih w3 hreg2 (by omega) (by rw [hz2]; unfold maxInt; omega)
      obtain ⟨hp1, hr1⟩ := hzero hz2
      refine ⟨w1, hrunw w1 hrun, ?_, ?_, ?_, ?_, ?_⟩
      · rw [hp1, hz2, heq]
        simp only [List.length_cons, Nat.cast_add, Nat.cast_one]
        omega
      · intro hz
        omega
      · intro _ _
        refine ⟨ts, ?_, ?_, ?_, ?_⟩
        · rw [heq]
          simp
        · rw [hr1, hr]
          rfl
        · rw [hp1, hg, addAction_actions]
          rfl
        · rw [hp1, hg]
          rfl
      · intro hlt
        simp only [List.length_cons, Nat.cast_add, Nat.cast_one] at hlt
        omega
      · refine ⟨u0 :: us, ?_, by simp [hlen], ?_⟩
        · rw [hus, hs, List.append_assoc]
          rfl
        · intro u hu
          rw [List.mem_cons] at hu
          rcases hu with hu | hu
          · rw [hu]
            exact hu0
          · exact hmsg u hu
    · rw [decayLocked_decays ts hgt hty] at hg hr
      have hH2 : w3.gameState.Pet.Health = w.gameState.Pet.Health - 1 := by rw [hg]; rfl
      have hA2 : w3.gameState.Pet.Actions = w.gameState.Pet.Actions := by rw [hg]; rfl
      have hR2 : w3.recorded = w.recorded := by rw [hr]; rfl
      obtain ⟨w1, hrun, hH, _, hdie, hlive, us, hus, hlen, hmsg⟩ :=
        ih w3 hreg2 (by omega) (by omega)
      refine ⟨w1, hrunw w1 hrun, ?_, ?_, ?_, ?_, ?_⟩
      · rw [hH, hH2]
        simp only [List.length_cons, Nat.cast_add, Nat.cast_one]
        omega
      · intro hz
        omega
      · intro _ hle
        simp only [List.length_cons, Nat.cast_add, Nat.cast_one] at hle
        obtain ⟨ts1, hidx, hrec, hact, hmood⟩ := hdie (by omega) (by omega)
        refine ⟨ts1, ?_, by rw [hrec, hR2], by rw [hact, hA2], hmood⟩
        have hi : (w.gameState.Pet.Health - 1).toNat =
            (w3.gameState.Pet.Health - 1).toNat + 1 := by omega
        rw [hi, List.getElem?_cons_succ]
        exact hidx
      · intro hlt
        simp only [List.length_cons, Nat.cast_add, Nat.cast_one] at hlt
        obtain ⟨hrec, hact⟩ := hlive (by omega)
        exact ⟨by rw [hrec, hR2], by rw [hact, hA2]⟩
      · refine ⟨u0 :: us, ?_, by simp [hlen], ?_⟩
        · rw [hus, hs, List.append_assoc]
          rfl
        · intro u hu
          rw [List.mem_cons] at hu
          rcases hu with hu | hu
          · rw [hu]
            exact hu0
          · exact hmsg u hu

/-- C18: in every state with `Health == h`, `0 ≤ h` (a value of Go's `int`,
with a well-formed registry), `n` consecutive decay ticks (with timestamps
`tss`, `n` their number) run to completion and leave
`Health == max(h - n, 0)`; they append exactly one action, `died` by `system`,
recorded by the tick that brings the health to 0, when `h > 0` and `n ≥ h`,
and no action otherwise; they make exactly `n` broadcasts, all with empty
message; and once the health is 0 (at the start, or after these ticks) any
number of further ticks leaves the pet unchanged. -/
theorem repeated_decay (w : World) (tss : List Nat) (hreg : RegistryOK w)
    (h0 : 0 ≤ w.gameState.Pet.Health) (hty : w.gameState.Pet.Health ≤ maxInt) :
    ∃ w1, run w (tss.map Op.tick) = some w1 ∧
      w1.gameState.Pet.Health = max (w.gameState.Pet.Health - tss.length) 0 ∧
      (0 < w.gameState.Pet.Health ∧ w.gameState.Pet.Health ≤ tss.length →
        ∃ ts, tss[(w.gameState.Pet.Health - 1).toNat]? = some ts ∧
          w1.recorded = w.recorded ++ [{ User := "system", Typ := "died", Timestamp := ts }] ∧
          w1.gameState.Pet.Actions =
            (w.gameState.Pet.Actions ++
              [({ User := "system", Typ := "died", Timestamp := ts } : Action)]).drop
              (w.gameState.Pet.Actions.length + 1 - 5) ∧
          w1.gameState.Pet.Mood = "dead") ∧
      (¬ (0 < w.gameState.Pet.Health ∧ w.gameState.Pet.Health ≤ tss.length) →
        w1.recorded = w.recorded ∧ w1.gameState.Pet.Actions = w.gameState.Pet.Actions) ∧
      (∃ us, w1.sent = w.sent ++ us ∧ us.length = tss.length ∧ ∀ u ∈ us, u.Message = "") ∧
      (w.gameState.Pet.Health = 0 → w1.gameState.Pet = w.gameState.Pet) ∧
      (w1.gameState.Pet.Health = 0 → ∀ more : List Nat,
        ∃ w2, run w1 (more.map Op.tick) = some w2 ∧ w2.gameState.Pet = w1.gameState.Pet) := by
  obtain ⟨w1, hrun, hH, hzero, hdie, hlive, hsent⟩ := ticks_spec tss w hreg h0 hty
  obtain ⟨w1b, hrunb, hreg1, _⟩ :=
    run_invariant_step (fun _ => True) (fun _ _ _ _ _ _ => trivial) (tss.map Op.tick) w hreg
      trivial
  rw [hrun] at hrunb
  cases hrunb
  refine ⟨w1, hrun, hH, fun h => hdie h.1 h.2, ?_, hsent, fun h => (hzero h).1, ?_⟩
  · intro hnot
    by_cases hz : w.gameState.Pet.Health = 0
    · obtain ⟨hp, hr⟩ := hzero hz
      exact ⟨hr, by rw [hp]⟩
    · exact hlive (by omega)
  · intro hz more
    obtain ⟨w2, hrun2, _, hzero2, _⟩ :=
      ticks_spec more w1 hreg1 (by omega) (by rw [hz]; unfold maxInt; omega)
    exact ⟨w2, hrun2, (hzero2 hz).1⟩

theorem repeated_decay_witness :
    RegistryOK (sampleWorld 2 "dying" "hit") ∧ 0 ≤ (sampleWorld 2 "dying" "hit").gameState.Pet.Health ∧
    (sampleWorld 2 "dying" "hit").gameState.Pet.Health ≤ maxInt ∧
    (∃ w1, run (sampleWorld 2 "dying" "hit") ([5, 6, 7].map Op.tick) = some w1 ∧
      w1.gameState.Pet.Health = max ((sampleWorld 2 "dying" "hit").gameState.Pet.Health - [5, 6, 7].length) 0 ∧
      (0 < (sampleWorld 2 "dying" "hit").gameState.Pet.Health ∧ (sampleWorld 2 "dying" "hit").gameState.Pet.Health ≤ [5, 6, 7].length →
        ∃ ts, [5, 6, 7][((sampleWorld 2 "dying" "hit").gameState.Pet.Health - 1).toNat]? = some ts ∧
          w1.recorded = (sampleWorld 2 "dying" "hit").recorded ++ [{ User := "system", Typ := "died", Timestamp := ts }] ∧
          w1.gameState.Pet.Actions =
            ((sampleWorld 2 "dying" "hit").gameState.Pet.Actions ++
              [({ User := "system", Typ := "died", Timestamp := ts } : Action)]).drop
              ((sampleWorld 2 "dying" "hit").gameState.Pet.Actions.length + 1 - 5) ∧
          w1.gameState.Pet.Mood = "dead") ∧
      (¬ (0 < (sampleWorld 2 "dying" "hit").gameState.Pet.Health ∧ (sampleWorld 2 "dying" "hit").gameState.Pet.Health ≤ [5, 6, 7].length) →
        w1.recorded = (sampleWorld 2 "dying" "hit").recorded ∧ w1.gameState.Pet.Actions = (sampleWorld 2 "dying" "hit").gameState.Pet.Actions) ∧
      (∃ us, w1.sent = (sampleWorld 2 "dying" "hit").sent ++ us ∧ us.length = [5, 6, 7].length ∧ ∀ u ∈ us, u.Message = "") ∧
      ((sampleWorld 2 "dying" "hit").gameState.Pet.Health = 0 → w1.gameState.Pet = (sampleWorld 2 "dying" "hit").gameState.Pet) ∧
      (w1.gameState.Pet.Health = 0 → ∀ more : List Nat,
        ∃ w2, run w1 (more.map Op.tick) = some w2 ∧ w2.gameState.Pet = w1.gameState.Pet)) :=
  ⟨by decide, by decide, by decide,
    repeated_decay (sampleWorld 2 "dying" "hit") [5, 6, 7] (by decide) (by decide) (by decide)⟩

/-! ## Moods set by the decay loop -/

theorem lockedPart_decayMoods (w : World) (op : Op) (h : PetBounds w ∧ DecayMoods w) :
    PetBounds (lockedPart w op) ∧ DecayMoods (lockedPart w op) := by
  refine ⟨lockedPart_petBounds w op h.1, ?_⟩
  obtain ⟨⟨hm, h0, h1⟩, hdy, hsad⟩ := h
  unfold DecayMoods
  cases op with
  | feed user now ts =>
    simp only [lockedPart, feedLocked]
    split_ifs <;>
      simp only [setPet_pet, addAction_health, addAction_maxHealth, addAction_mood] at * <;>
      simp
  | pet user now ts =>
    simp only [lockedPart, petLocked]
    split_ifs <;>
      simp only [setPet_pet, addAction_health, addAction_maxHealth, addAction_mood] at * <;>
      first
        | exact ⟨hdy, hsad⟩
        | simp_all
  | hit user ts =>
    simp only [lockedPart, hitLocked]
    split_ifs <;>
      simp only [setPet_pet, addAction_health, addAction_maxHealth, addAction_mood] at * <;>
      first
        | exact ⟨hdy, hsad⟩
        | simp
  | tick ts =>
    simp only [lockedPart, decayLocked]
    split_ifs <;>
      simp only [setPet_pet, addAction_health, addAction_maxHealth, addAction_mood] at * <;>
      first
        | exact ⟨hdy, hsad⟩
        | (simp; done)
        | (simp
           simp only [wrapInt] at *
           omega)
        | (constructor
           · intro hd
             have := hdy hd
             simp only [wrapInt] at *
             omega
           · intro hd
             have := hsad hd
             simp only [wrapInt] at *
             omega)
  | subscribe _ => exact ⟨hdy, hsad⟩
  | unsubscribe _ => exact ⟨hdy, hsad⟩
  | getState => exact ⟨hdy, hsad⟩
  | receive _ => exact ⟨hdy, hsad⟩

theorem decayMoods_congr (w w1 : World) (hp : w1.gameState.Pet = w.gameState.Pet)
    (hr : w1.recorded = w.recorded) (h : PetBounds w ∧ DecayMoods w) :
    PetBounds w1 ∧ DecayMoods w1 := by
  refine ⟨petBounds_congr w w1 hp hr h.1, ?_⟩
  have := h.2
  unfold DecayMoods at *
  rw [hp]
  exact this

/-- C20: from `InitGame`, every finite sequence of calls runs to completion, and
in the state it ends in `Mood == "dying"` implies `1 ≤ Health ≤ 19` and
`Mood == "sad"` implies `20 ≤ Health ≤ 39`. -/
theorem decay_moods_match_health (t1 t2 : Nat) (ops : List Op) :
    ∃ w, run (InitGame t1 t2) ops = some w ∧
      (w.gameState.Pet.Mood = "dying" →
        1 ≤ w.gameState.Pet.Health ∧ w.gameState.Pet.Health ≤ 19) ∧
      (w.gameState.Pet.Mood = "sad" →
        20 ≤ w.gameState.Pet.Health ∧ w.gameState.Pet.Health ≤ 39) := by
  obtain ⟨w, hrun, _, _, hd⟩ :=
    run_invariant (fun w => PetBounds w ∧ DecayMoods w) decayMoods_congr
      lockedPart_decayMoods ops (InitGame t1 t2) (InitGame_registryOK t1 t2)
      ⟨InitGame_petBounds t1 t2, by
        unfold DecayMoods InitGame
        simp⟩
  exact ⟨w, hrun, hd.1, hd.2⟩

/-! ## Health 0 and the most recent action -/

theorem lastIsFatal_concat (l : List Action) (a : Action) :
    lastIsFatal (l ++ [a]) ↔ (a.Typ = "killed" ∨ a.Typ = "died") := by
  unfold lastIsFatal
  rw [List.getLast?_concat]
  constructor
  · rintro ⟨b, hb, hk⟩
    cases hb
    exact hk
  · intro hk
    exact ⟨a, rfl, hk⟩

theorem lockedPart_zeroIffFatal (w : World) (op : Op) (h : PetBounds w ∧ ZeroIffFatal w) :
    PetBounds (lockedPart w op) ∧ ZeroIffFatal (lockedPart w op) := by
  refine ⟨lockedPart_petBounds w op h.1, ?_⟩
  obtain ⟨⟨hm, h0, h1⟩, hz⟩ := h
  unfold ZeroIffFatal at *
  have hmax : w.gameState.Pet.Health ≤ maxInt := by unfold maxInt; omega
  cases op with
  | feed user now ts =>
    simp only [lockedPart]
    by_cases hd : w.gameState.Pet.Health ≤ 0
    · rw [feedLocked_dead user now ts hd]
      simp only [addAction_health, setPet_pet, addAction_recorded, lastIsFatal_concat]
      simp
    · rw [feedLocked_live user now ts (by omega) (by unfold maxInt; omega)]
      simp only [addAction_health, setPet_pet, addAction_recorded, lastIsFatal_concat]
      simp
      omega
  | pet user now ts =>
    simp only [lockedPart]
    by_cases hd : w.gameState.Pet.Health ≤ 0
    · simp only [petLocked, if_pos hd]
      exact hz
    · rw [petLocked_live user now ts (by omega) (by unfold maxInt; omega)]
      simp only [addAction_health, setPet_pet, addAction_recorded, lastIsFatal_concat]
      simp
      omega
  | hit user ts =>
    simp only [lockedPart]
    by_cases hd : w.gameState.Pet.Health ≤ 0
    · simp only [hitLocked, if_pos hd]
      exact hz
    · by_cases h20 : w.gameState.Pet.Health ≤ 20
      · rw [hitLocked_fatal user ts (by omega) h20]
        simp only [addAction_health, setPet_pet, addAction_recorded, lastIsFatal_concat]
        simp
      · rw [hitLocked_survives user ts (by omega) hmax]
        simp only [addAction_health, setPet_pet, addAction_recorded, lastIsFatal_concat]
        simp
        omega
  | tick ts =>
    simp only [lockedPart]
    rcases lt_trichotomy w.gameState.Pet.Health 1 with hlt | heq | hgt
    · rw [decayLocked_dead ts (by omega)]
      exact hz
    · rw [decayLocked_dies ts heq]
      simp only [addAction_health, setPet_pet, addAction_recorded, lastIsFatal_concat]
      simp
    · rw [decayLocked_decays ts hgt hmax]
      simp only [setPet_pet, setPet_recorded]
      constructor
      · intro h
        omega
      · intro h
        have := hz.mpr h
        omega
  | subscribe _ => exact hz
  | unsubscribe _ => exact hz
  | getState => exact hz
  | receive _ => exact hz

theorem getLast?_lastFive {α : Type} (l : List α) :
    (l.drop (l.length - 5)).getLast? = l.getLast? := by
  rw [List.getLast?_drop]
  split_ifs with h
  · have hl : l.length = 0 := by omega
    rw [List.length_eq_zero] at hl
    rw [hl]
    rfl
  · rfl

/-- C19: from `InitGame`, every finite sequence of calls runs to completion, and
in the state it ends in `Health == 0` holds exactly when the action log is not
empty and its most recent entry has type `killed` or `died`. -/
theorem health_zero_iff_last_action_fatal (t1 t2 : Nat) (ops : List Op) :
    ∃ w, run (InitGame t1 t2) ops = some w ∧
      (w.gameState.Pet.Health = 0 ↔
        w.gameState.Pet.Actions ≠ [] ∧
          ∃ a, w.gameState.Pet.Actions.getLast? = some a ∧
            (a.Typ = "killed" ∨ a.Typ = "died")) := by
  obtain ⟨w, hrun, _, ⟨_, hz⟩, h5⟩ :=
    run_invariant (fun w => (PetBounds w ∧ ZeroIffFatal w) ∧ ActionsAreLastFive w)
      (fun w w1 hp hr h => ⟨⟨petBounds_congr w w1 hp hr h.1.1, by
        have := h.1.2
        unfold ZeroIffFatal at *
        rw [hp, hr]
        exact this⟩, lastFive_congr w w1 hp hr h.2⟩)
      (fun w op h => ⟨lockedPart_zeroIffFatal w op h.1, lockedPart_lastFive w op h.2⟩)
      ops (InitGame t1 t2) (InitGame_registryOK t1 t2)
      ⟨⟨InitGame_petBounds t1 t2, by
        unfold ZeroIffFatal lastIsFatal InitGame
        simp⟩, rfl⟩
  refine ⟨w, hrun, ?_⟩
  unfold ZeroIffFatal lastIsFatal at hz
  unfold ActionsAreLastFive at h5
  have hlast : w.gameState.Pet.Actions.getLast? = w.recorded.getLast? := by
    rw [h5]
    exact getLast?_lastFive _
  rw [hz, hlast]
  constructor
  · rintro ⟨a, ha, hk⟩
    refine ⟨?_, a, ha, hk⟩
    intro hnil
    rw [← hlast, hnil] at ha
    exact absurd ha (by simp)
  · rintro ⟨_, a, ha, hk⟩
    exact ⟨a, ha, hk⟩

end Tamagotchi
